import Mathlib

/-!
Verification of calculator.cpp

Shallow embedding of `postman/demo-api-server/cpp/calculator.cpp`.

* `int` and `long long` values are mathematical integers; every arithmetic
  result is reduced into the signed range of its C++ type (`wrap32`,
  `wrap64`), which is the native two's-complement behaviour.
* Loops whose exit cannot be read off the source are run with fuel:
  `none` means the fuel ran out before the loop left.
* Buffer reads and writes are checked: an access outside the buffer is an
  explicit outcome, never a default value.
-/

namespace Calculator

/-! ## Machine integers -/

/-- Least value of a 32-bit `int`. -/
def INT_MIN : Int := -2147483648

/-- Greatest value of a 32-bit `int`. -/
def INT_MAX : Int := 2147483647

/-- Least value of a 64-bit `long long`. -/
def LLONG_MIN : Int := -9223372036854775808

/-- Greatest value of a 64-bit `long long`. -/
def LLONG_MAX : Int := 9223372036854775807

/-- The value lies in the range of `int`. -/
def isInt32 (x : Int) : Prop := INT_MIN ≤ x ∧ x ≤ INT_MAX

instance (x : Int) : Decidable (isInt32 x) := by
  unfold isInt32; exact inferInstance

/-- The value lies in the range of `long long`. -/
def isInt64 (x : Int) : Prop := LLONG_MIN ≤ x ∧ x ≤ LLONG_MAX

instance (x : Int) : Decidable (isInt64 x) := by
  unfold isInt64; exact inferInstance

/-- Reduction of a mathematical integer into the range of `int`
(two's complement, modulus `2^32`). -/
def wrap32 (x : Int) : Int := (x + 2147483648) % 4294967296 - 2147483648

/-- Reduction of a mathematical integer into the range of `long long`
(two's complement, modulus `2^64`). -/
def wrap64 (x : Int) : Int :=
  (x + 9223372036854775808) % 18446744073709551616 - 9223372036854775808

/-! ## Arithmetic engine -/

/-- Source function `int add(int a, int b)`: returns `a + b`, an `int`. -/
def add (a b : Int) : Int := wrap32 (a + b)

/-- Source function `long long multiply(int a, int b)`, returning `(long long)a * b`:
both operands are widened to `long long`, the product is a `long long`. -/
def multiply (a b : Int) : Int := wrap64 (wrap64 a * wrap64 b)

/-- The `for (int i = 2; i <= n; i++)` loop of `fibonacci`, on the state
`(i, prev, curr)`. One unit of fuel is spent per evaluation of the loop
condition; `none` means the fuel ran out with the loop still running. -/
def fibonacciLoop (n : Int) : Nat → Int → Int → Int → Option Int
  | 0, _, _, _ => none
  | fuel + 1, i, prev, curr =>
    if i ≤ n then
      let next := wrap64 (prev + curr)
      fibonacciLoop n fuel (wrap32 (i + 1)) curr next
    else
      some curr

/-- Source function `long long fibonacci(int n)`: the two early returns, then
the loop started at `i = 2`, `prev = 0`, `curr = 1`. -/
def fibonacci (fuel : Nat) (n : Int) : Option Int :=
  if n ≤ 0 then some 0
  else if n = 1 then some 1
  else fibonacciLoop n fuel 2 0 1

/-- Source function `long long sumOfSquares(int arr[], int size)`: the loop
`for (int i = 0; i < size; i++) sum += (long long)arr[i] * arr[i];` runs over the
indices `0 .. size - 1`; `none` is a read outside the array. -/
def sumOfSquares (arr : List Int) (size : Int) : Option Int :=
  (List.range size.toNat).foldlM
    (fun sum i => (arr[i]?).map (fun x => wrap64 (sum + wrap64 (wrap64 x * wrap64 x)))) 0

/-- Reference Fibonacci sequence over the integers, as the specification
words it: `F(0) = 0`, `F(1) = 1`, `F(k) = F(k-1) + F(k-2)`. -/
def fibRef : Nat → Int
  | 0 => 0
  | 1 => 1
  | k + 2 => fibRef (k + 1) + fibRef k

/-- Mathematical sum of the squares of a list. -/
def sumSq (xs : List Int) : Int := (xs.map (fun x => x * x)).sum

/-! ## Text input and output -/

/-- The line end `std::endl`, as far as the text written is concerned. -/
def endl : String := "\n"

/-- Text of `cout << x` for an integer `x`: decimal digits, `-` in front of a
negative value. -/
def showInt (x : Int) : String :=
  if x < 0 then "-" ++ Nat.repr x.natAbs else Nat.repr x.natAbs

/-- Text of `cout << fixed << setprecision(3) << us / 1000.0` for a count `us` of
microseconds: the milliseconds with three decimals. -/
def showMillis (us : Nat) : String :=
  Nat.repr (us / 1000) ++ "." ++ Nat.repr (us % 1000 / 100) ++
    Nat.repr (us % 100 / 10) ++ Nat.repr (us % 10)

/-- The two exceptions `std::stoi` throws. -/
inductive StoiError where
  | invalid_argument
  | out_of_range
  deriving DecidableEq, Repr

/-- The test `isspace` in the C locale. -/
def isspace (c : Char) : Bool :=
  c = ' ' || c = '\t' || c = '\n' || c = '\x0b' || c = '\x0c' || c = '\r'

/-- Value of a run of decimal digits. -/
def digitsValue (ds : List Char) : Nat :=
  ds.foldl (fun acc c => 10 * acc + (c.toNat - 48)) 0

/-- Library function `std::stoi(s)` (base 10, no position argument): leading white space is
skipped, one sign is accepted, the longest run of digits is converted and
whatever follows it is ignored. No digit: `invalid_argument`; a value
outside `int`: `out_of_range`. -/
def stoi (s : String) : Except StoiError Int :=
  let cs := s.data.dropWhile isspace
  let body : Bool × List Char :=
    match cs with
    | '-' :: r => (true, r)
    | '+' :: r => (false, r)
    | _ => (false, cs)
  let ds := body.2.takeWhile Char.isDigit
  if ds = [] then .error .invalid_argument
  else
    let v : Int := if body.1 then -(digitsValue ds : Int) else (digitsValue ds : Int)
    if INT_MIN ≤ v ∧ v ≤ INT_MAX then .ok v else .error .out_of_range

/-- Source function `void printUsage()`: the text it writes. -/
def printUsage : String :=
  "Usage: ./calculator <operation> <number1> [number2] [number3...]" ++ endl ++
  "Operations:" ++ endl ++
  "  add <a> <b>        - Addition: a + b" ++ endl ++
  "  multiply <a> <b>   - Multiplication: a * b" ++ endl ++
  "  fibonacci <n>      - Fibonacci number at position n" ++ endl ++
  "  squares <n1> <n2>... - Sum of squares of all numbers" ++ endl

/-! ## CLI driver -/

/-- How a run of `main` ends. -/
inductive Outcome where
  /-- `main` returned `code` after writing `out` to standard output. -/
  | exit (code : Int) (out : String)
  /-- An access outside `argv` or outside the operand buffer. -/
  | fault
  deriving DecidableEq, Repr

/-- Result of evaluating an expression inside the `try` block. -/
inductive Step (α : Type) where
  | val (a : α)
  | threw (e : StoiError)
  | fault
  deriving DecidableEq, Repr

/-- The call `stoi(argv[i])`. -/
def stoiArg (argv : List String) (i : Nat) : Step Int :=
  match argv[i]? with
  | none => .fault
  | some s =>
    match stoi s with
    | .error e => .threw e
    | .ok x => .val x

/-- The `catch` clauses of `main` for the exceptions of `stoi`. -/
def handler (e : StoiError) (out : String) : Outcome :=
  match e with
  | .invalid_argument => .exit 1 (out ++ "Error: Invalid number format" ++ endl)
  | .out_of_range => .exit 1 (out ++ "Error: Number out of range" ++ endl)

/-- End of the `try` block: the elapsed time, the success marker,
`return 0`. `elapsed` is the clock difference in microseconds. -/
def report (elapsed : Nat) (out : String) : Outcome :=
  .exit 0 (out ++ "[C++] Execution time: " ++ showMillis elapsed ++ "ms" ++ endl ++
    "[C++] Calculation completed successfully!" ++ endl)

/-- State of the loop that fills the operand buffer of `squares`. -/
inductive Fill where
  | filled (numbers : List Int) (out : String)
  | threw (e : StoiError) (out : String)
  | fault

/-- The loop `for (int i = 0; i < count; i++) { numbers[i] = stoi(argv[i + 2]);
cout << numbers[i] << " "; }` over the indices it visits. -/
def fillNumbers (argv : List String) : List Nat → List Int → String → Fill
  | [], numbers, out => .filled numbers out
  | i :: rest, numbers, out =>
    match stoiArg argv (i + 2) with
    | .fault => .fault
    | .threw e => .threw e out
    | .val x =>
      if i < numbers.length then
        fillNumbers argv rest (numbers.set i x) (out ++ showInt x ++ " ")
      else .fault

/-- The text written before the `try` block, once `argc < 3` is excluded. -/
def banner (operation : String) : String :=
  "[C++] Starting calculation..." ++ endl ++ "[C++] Operation: " ++ operation ++ endl

/-- Branch `operation == "add"` of `main`, up to its `return`. -/
def mainAdd (elapsed : Nat) (argv : List String) (out : String) : Outcome :=
  let argc : Int := argv.length
  if argc ≠ 4 then
    .exit 1 (out ++ "Error: Add operation requires exactly 2 numbers" ++ endl)
  else
    match stoiArg argv 2 with
    | .fault => .fault
    | .threw e => handler e out
    | .val a =>
      match stoiArg argv 3 with
      | .fault => .fault
      | .threw e => handler e out
      | .val b =>
        let result := add a b
        report elapsed
          (out ++ "[C++] Calculating: " ++ showInt a ++ " + " ++ showInt b ++ endl ++
            "RESULT: " ++ showInt result ++ endl)

/-- Branch `operation == "multiply"` of `main`, up to its `return`. -/
def mainMultiply (elapsed : Nat) (argv : List String) (out : String) : Outcome :=
  let argc : Int := argv.length
  if argc ≠ 4 then
    .exit 1 (out ++ "Error: Multiply operation requires exactly 2 numbers" ++ endl)
  else
    match stoiArg argv 2 with
    | .fault => .fault
    | .threw e => handler e out
    | .val a =>
      match stoiArg argv 3 with
      | .fault => .fault
      | .threw e => handler e out
      | .val b =>
        let result := multiply a b
        report elapsed
          (out ++ "[C++] Calculating: " ++ showInt a ++ " * " ++ showInt b ++ endl ++
            "RESULT: " ++ showInt result ++ endl)

/-- Branch `operation == "fibonacci"` of `main`, up to its `return`; `none`
when the call of `fibonacci` does not return within the fuel. -/
def mainFibonacci (fuel elapsed : Nat) (argv : List String) (out : String) :
    Option Outcome :=
  let argc : Int := argv.length
  if argc ≠ 3 then
    some (.exit 1 (out ++ "Error: Fibonacci operation requires exactly 1 number" ++ endl))
  else
    match stoiArg argv 2 with
    | .fault => some .fault
    | .threw e => some (handler e out)
    | .val n =>
      if n < 0 then
        some (.exit 1 (out ++ "Error: Fibonacci position must be non-negative" ++ endl))
      else
        match fibonacci fuel n with
        | none => none
        | some result =>
          some (report elapsed
            (out ++ "[C++] Calculating: fibonacci(" ++ showInt n ++ ")" ++ endl ++
              "RESULT: " ++ showInt result ++ endl))

/-- Branch `operation == "squares"` of `main`, up to its `return`. The
buffer `new int[count]` starts as `count` cells, each written before it is
read. -/
def mainSquares (elapsed : Nat) (argv : List String) (out : String) : Outcome :=
  let argc : Int := argv.length
  if argc < 3 then
    .exit 1 (out ++ "Error: Squares operation requires at least 1 number" ++ endl)
  else
    let count : Int := argc - 2
    match fillNumbers argv (List.range count.toNat) (List.replicate count.toNat 0)
        (out ++ "[C++] Numbers: ") with
    | .fault => .fault
    | .threw e out1 => handler e out1
    | .filled numbers out1 =>
      match sumOfSquares numbers count with
      | none => .fault
      | some result =>
        report elapsed
          (out1 ++ endl ++ "[C++] Calculating sum of squares..." ++ endl ++
            "RESULT: " ++ showInt result ++ endl)

/-- Source function `int main(int argc, char* argv[])` with `argc = argv.length` (an `int`,
so that `argc - 2` does not overflow). `fuel` bounds the loop of
`fibonacci` (`none`: the call did not return), `elapsed` is the clock
difference in microseconds. -/
def main (fuel elapsed : Nat) (argv : List String) : Option Outcome :=
  let argc : Int := argv.length
  if argc < 3 then some (.exit 1 printUsage)
  else
    match argv[1]? with
    | none => some .fault
    | some operation =>
      let out := banner operation
      if operation = "add" then some (mainAdd elapsed argv out)
      else if operation = "multiply" then some (mainMultiply elapsed argv out)
      else if operation = "fibonacci" then mainFibonacci fuel elapsed argv out
      else if operation = "squares" then some (mainSquares elapsed argv out)
      else
        some (.exit 1 (out ++ "Error: Unknown operation '" ++ operation ++ "'" ++ endl ++
          printUsage))

/-- The invocation is `fibonacci` with one operand that `stoi` reads as
`INT_MAX`. -/
def isFibonacciIntMax (argv : List String) : Bool :=
  argv.length == 3 && argv[1]? == some "fibonacci" &&
    (match stoiArg argv 2 with
     | .val n => n == INT_MAX
     | _ => false)

/-! ## Lines of the output -/

/-- The lines of a text: every `'\n'` ends a line, and text after the last
`'\n'` is a line of its own. -/
def lines : List Char → List (List Char)
  | [] => []
  | c :: cs =>
    if c = '\n' then [] :: lines cs
    else
      match lines cs with
      | [] => [[c]]
      | l :: ls => (c :: l) :: ls

/-- The lines of the output that begin with `RESULT:`. -/
def resultLines (out : String) : List (List Char) :=
  (lines out.data).filter (fun l => "RESULT:".data.isPrefixOf l)

/-- The success marker, without its line end. -/
def successMarker : String := "[C++] Calculation completed successfully!"

/-- The output has a line that is exactly the success marker. -/
def hasSuccessMarker (out : String) : Bool :=
  (lines out.data).contains successMarker.data

/-- The output has no line beginning with `RESULT:` and no success marker
line. -/
def silent (out : String) : Prop :=
  resultLines out = [] ∧ hasSuccessMarker out = false

instance (out : String) : Decidable (silent out) := by
  unfold silent; exact inferInstance

/-- The outcome is a return of 0 or 1 whose output is silent when the
status is not 0. -/
def Outcome.wellReported : Outcome → Prop
  | .exit code out => (code = 0 ∨ code = 1) ∧ (code ≠ 0 → silent out)
  | .fault => False

/-! ## Notions used by the statements on arguments and on additions -/

/-- The operation is one of the four names and `count` is a number of
operands it takes: exactly 2 for `add` and `multiply`, exactly 1 for
`fibonacci`, 1 or more for `squares`. -/
def validArity (op : String) (count : Nat) : Prop :=
  (op = "add" ∧ count = 2) ∨ (op = "multiply" ∧ count = 2) ∨
    (op = "fibonacci" ∧ count = 1) ∨ (op = "squares" ∧ 1 ≤ count)

instance (op : String) (count : Nat) : Decidable (validArity op count) := by
  unfold validArity; exact inferInstance

/-- Spec wording, "optionally signed decimal integer": what is left of the
text once one leading sign is taken off. -/
def unsignedPart (s : String) : List Char :=
  match s.data with
  | '-' :: r => r
  | '+' :: r => r
  | cs => cs

/-- Spec wording, "optionally signed decimal integer": one optional sign,
then one decimal digit or more, and nothing else. -/
def isDecimalInteger (s : String) : Bool :=
  !(unsignedPart s).isEmpty && (unsignedPart s).all Char.isDigit

/-- Spec wording: the value of an optionally signed decimal integer. -/
def decimalValue (s : String) : Int :=
  match s.data with
  | '-' :: r => -(digitsValue r : Int)
  | _ => (digitsValue (unsignedPart s) : Int)

/-- The additions of the loop of `fibonacci`: the exact value `prev + curr`
of each one, in order, before it is reduced to a `long long`. Same state and
same fuel as `fibonacciLoop`. -/
def fibonacciSums (n : Int) : Nat → Int → Int → Int → List Int
  | 0, _, _, _ => []
  | fuel + 1, i, prev, curr =>
    if i ≤ n then
      (prev + curr) :: fibonacciSums n fuel (wrap32 (i + 1)) curr (wrap64 (prev + curr))
    else
      []

/-- The additions performed by the call `fibonacci(n)`: none on the two
early returns, those of the loop otherwise. -/
def fibonacciAdditions (fuel : Nat) (n : Int) : List Int :=
  if n ≤ 0 then []
  else if n = 1 then []
  else fibonacciSums n fuel 2 0 1

/-- The message of the operand-count check of the `squares` branch. -/
def squaresCountError : String := "Error: Squares operation requires at least 1 number"

/-! ## Machine integers: basic facts -/

theorem wrap32_range (x : Int) : isInt32 (wrap32 x) := by
  unfold isInt32 wrap32 INT_MIN INT_MAX
  omega

theorem wrap32_of_isInt32 {x : Int} (h : isInt32 x) : wrap32 x = x := by
  unfold isInt32 INT_MIN INT_MAX at h
  unfold wrap32
  omega

theorem wrap64_range (x : Int) : isInt64 (wrap64 x) := by
  unfold isInt64 wrap64 LLONG_MIN LLONG_MAX
  omega

theorem wrap64_of_isInt64 {x : Int} (h : isInt64 x) : wrap64 x = x := by
  unfold isInt64 LLONG_MIN LLONG_MAX at h
  unfold wrap64
  omega

theorem wrap64_of_isInt32 {x : Int} (h : isInt32 x) : wrap64 x = x := by
  unfold isInt32 INT_MIN INT_MAX at h
  unfold wrap64
  omega

theorem wrap64_add_wrap64 (x y : Int) : wrap64 (wrap64 x + wrap64 y) = wrap64 (x + y) := by
  unfold wrap64
  omega

/-- The product of two `int` values fits a `long long`. -/
theorem isInt64_mul {a b : Int} (ha : isInt32 a) (hb : isInt32 b) : isInt64 (a * b) := by
  unfold isInt32 INT_MIN INT_MAX at ha hb
  unfold isInt64 LLONG_MIN LLONG_MAX
  obtain ⟨ha1, ha2⟩ := ha
  obtain ⟨hb1, hb2⟩ := hb
  constructor
  · nlinarith [mul_nonneg (sub_nonneg.2 ha1) (sub_nonneg.2 hb2),
      mul_nonneg (sub_nonneg.2 ha2) (sub_nonneg.2 hb1)]
  · nlinarith [mul_nonneg (sub_nonneg.2 ha1) (sub_nonneg.2 hb1),
      mul_nonneg (sub_nonneg.2 ha2) (sub_nonneg.2 hb2)]

/-! ## add, multiply -/

/-- C1: for 32-bit `a` and `b`, `add a b` is the one value of the `int`
range congruent to `a + b` modulo `2^32`, and it is `a + b` itself when
that sum is in the `int` range. -/
theorem add_wraparound (a b : Int) (ha : isInt32 a) (hb : isInt32 b) :
    isInt32 (add a b) ∧
    add a b ≡ a + b [ZMOD 4294967296] ∧
    (∀ r : Int, isInt32 r → r ≡ a + b [ZMOD 4294967296] → r = add a b) ∧
    (isInt32 (a + b) → add a b = a + b) := by
  unfold isInt32 INT_MIN INT_MAX at *
  unfold add wrap32 Int.ModEq
  refine ⟨by omega, by omega, ?_, by omega⟩
  intro r hr hmod
  omega

theorem add_wraparound_witness :
    isInt32 2147483647 ∧ isInt32 1 ∧ add 2147483647 1 = -2147483648 ∧
    isInt32 (add 2147483647 1) ∧
    add 2147483647 1 ≡ 2147483647 + 1 [ZMOD 4294967296] ∧
    (∀ r : Int, isInt32 r → r ≡ 2147483647 + 1 [ZMOD 4294967296] → r = add 2147483647 1) ∧
    (isInt32 (2147483647 + 1) → add 2147483647 1 = 2147483647 + 1) :=
  ⟨by decide, by decide, by decide, add_wraparound 2147483647 1 (by decide) (by decide)⟩

/-- C2: for 32-bit `a` and `b`, `multiply a b` is the exact product
`a * b`, which lies in the `long long` range: nothing wraps. -/
theorem multiply_exact (a b : Int) (ha : isInt32 a) (hb : isInt32 b) :
    multiply a b = a * b ∧ isInt64 (a * b) := by
  have h := isInt64_mul ha hb
  refine ⟨?_, h⟩
  unfold multiply
  rw [wrap64_of_isInt32 ha, wrap64_of_isInt32 hb, wrap64_of_isInt64 h]

theorem multiply_exact_witness :
    isInt32 (-2147483648) ∧
    multiply (-2147483648) (-2147483648) = (-2147483648) * (-2147483648) ∧
    isInt64 ((-2147483648) * (-2147483648)) :=
  ⟨by decide, multiply_exact (-2147483648) (-2147483648) (by decide) (by decide)⟩

/-! ## fibonacci -/

/-- The reference sequence is Mathlib's Fibonacci sequence. -/
theorem fibRef_eq_fib (k : Nat) : fibRef k = (Nat.fib k : Int) := by
  induction k using Nat.strong_induction_on with
  | _ k ih =>
    match k with
    | 0 => rfl
    | 1 => rfl
    | k + 2 =>
      rw [fibRef, ih (k + 1) (by omega), ih k (by omega), Nat.fib_add_two]
      push_cast
      ring

theorem fibRef_nonneg (k : Nat) : 0 ≤ fibRef k := by
  rw [fibRef_eq_fib]
  exact Int.natCast_nonneg _

theorem fibRef_92 : fibRef 92 = 7540113804746346429 := by
  rw [fibRef_eq_fib]
  norm_num

theorem fibRef_93 : fibRef 93 = 12200160415121876738 := by
  rw [fibRef_eq_fib]
  norm_num

/-- Up to index 92 the reference value fits a `long long`. -/
theorem isInt64_fibRef {k : Nat} (hk : k ≤ 92) : isInt64 (fibRef k) := by
  have h0 := fibRef_nonneg k
  have h1 : fibRef k ≤ fibRef 92 := by
    rw [fibRef_eq_fib, fibRef_eq_fib]
    exact_mod_cast Nat.fib_mono hk
  rw [fibRef_92] at h1
  unfold isInt64 LLONG_MIN LLONG_MAX
  omega

theorem fibonacciLoop_succ (n : Int) (fuel : Nat) (i prev curr : Int) :
    fibonacciLoop n (fuel + 1) i prev curr =
      if i ≤ n then fibonacciLoop n fuel (wrap32 (i + 1)) curr (wrap64 (prev + curr))
      else some curr := rfl

/-- Invariant of the loop of `fibonacci`: entered with `i = k + 2`,
`prev = F(k)` and `curr = F(k+1)` (reduced to 64 bits), with `m` iterations
left before `i` passes `n`, and `n` below `INT_MAX`, it leaves with `F(n)`
reduced to 64 bits as soon as the fuel covers the `m + 1` tests. -/
theorem fibonacciLoop_eq (n : Int) (hn : n < INT_MAX) :
    ∀ (m k extra : Nat), (k : Int) + 2 + m = n + 1 →
      fibonacciLoop n (m + 1 + extra) (k + 2) (wrap64 (fibRef k)) (wrap64 (fibRef (k + 1)))
        = some (wrap64 (fibRef (k + 1 + m))) := by
  unfold INT_MAX at hn
  intro m
  induction m with
  | zero =>
    intro k extra h
    have hlt : ¬ ((k : Int) + 2 ≤ n) := by omega
    rw [show 0 + 1 + extra = extra + 1 by omega, fibonacciLoop_succ, if_neg hlt]
  | succ m ih =>
    intro k extra h
    have hle : (k : Int) + 2 ≤ n := by omega
    have hi : wrap32 ((k : Int) + 2 + 1) = ((k + 1 : Nat) : Int) + 2 := by
      unfold wrap32
      push_cast
      omega
    rw [show m + 1 + 1 + extra = (m + 1 + extra) + 1 by omega]
    have hF : fibRef k + fibRef (k + 1) = fibRef (k + 1 + 1) := by
      rw [show k + 1 + 1 = k + 2 from rfl, fibRef, add_comm]
    rw [fibonacciLoop_succ, if_pos hle, hi, wrap64_add_wrap64, hF]
    have key := ih (k + 1) extra (by push_cast; omega)
    rw [key, show k + 1 + 1 + m = k + 1 + (m + 1) by omega]

/-- For `0 ≤ n < INT_MAX` and fuel at least `n`, `fibonacci` returns the
`n`-th reference value reduced to 64 bits. -/
theorem fibonacci_eq_wrap (fuel : Nat) (n : Int) (h0 : 0 ≤ n) (hn : n < INT_MAX)
    (hf : n ≤ fuel) : fibonacci fuel n = some (wrap64 (fibRef n.toNat)) := by
  obtain ⟨k, rfl⟩ := Int.eq_ofNat_of_zero_le h0
  simp only [Int.toNat_ofNat]
  match k with
  | 0 => simp [fibonacci, fibRef, wrap64]
  | 1 => simp [fibonacci, fibRef, wrap64]
  | k + 2 =>
    have hf2 : k + 2 ≤ fuel := by exact_mod_cast hf
    obtain ⟨extra, rfl⟩ : ∃ extra, fuel = (k + 1) + 1 + extra := ⟨fuel - (k + 2), by omega⟩
    have h1 : ¬ (((k + 2 : Nat) : Int) ≤ 0) := by push_cast; omega
    have h2 : ¬ (((k + 2 : Nat) : Int) = 1) := by push_cast; omega
    have key := fibonacciLoop_eq ((k + 2 : Nat) : Int) hn (k + 1) 0 extra (by push_cast; omega)
    simp only [fibonacci, h1, h2, if_false]
    have e0 : wrap64 (fibRef 0) = 0 := by simp [fibRef, wrap64]
    have e1 : wrap64 (fibRef (0 + 1)) = 1 := by simp [fibRef, wrap64]
    rw [e0, e1] at key
    simp only [Nat.cast_zero, zero_add] at key
    rw [key, show 0 + 1 + (k + 1) = k + 2 by omega]

/-- With `n = INT_MAX` the loop condition `i <= n` holds for every `int`
value of `i`: no amount of fuel lets the loop leave. -/
theorem fibonacciLoop_INT_MAX (fuel : Nat) :
    ∀ i prev curr : Int, isInt32 i → fibonacciLoop INT_MAX fuel i prev curr = none := by
  induction fuel with
  | zero => intro i prev curr _; rfl
  | succ fuel ih =>
    intro i prev curr hi
    have hle : i ≤ INT_MAX := hi.2
    rw [fibonacciLoop_succ, if_pos hle]
    exact ih _ _ _ (wrap32_range _)

/-- The call `fibonacci(INT_MAX)` never returns. -/
theorem fibonacci_INT_MAX (fuel : Nat) : fibonacci fuel INT_MAX = none := by
  have h1 : ¬ (INT_MAX ≤ 0) := by decide
  have h2 : ¬ (INT_MAX = 1) := by decide
  simp only [fibonacci, h1, h2, if_false]
  exact fibonacciLoop_INT_MAX fuel 2 0 1 (by decide)

/-- C3: `fibonacci(0) == 0`, `fibonacci(1) == 1` and `fibonacci(10) == 55`;
the first two need no fuel, the third returns with any fuel from 10 on. -/
theorem fibonacci_values (extra : Nat) :
    fibonacci extra 0 = some 0 ∧ fibonacci extra 1 = some 1 ∧
    fibonacci (10 + extra) 10 = some 55 := by
  refine ⟨by simp [fibonacci], by simp [fibonacci], ?_⟩
  have h := fibonacci_eq_wrap (10 + extra) 10 (by decide) (by decide) (by push_cast; omega)
  rw [h]
  decide

/-- C4, as stated, fails at `n = 93`: the three calls return, and the value
of `fibonacci(93)` is not the sum of the values of `fibonacci(92)` and
`fibonacci(91)`. -/
theorem fibonacci_recurrence_fails_at_93 :
    fibonacci 93 93 = some (-6246583658587674878) ∧
    fibonacci 93 92 = some 7540113804746346429 ∧
    fibonacci 93 91 = some 4660046610375530309 ∧
    (-6246583658587674878 : Int) ≠ 7540113804746346429 + 4660046610375530309 := by
  set_option maxRecDepth 100000 in decide

/-- C4, amended: for `2 ≤ n < INT_MAX` and fuel at least `n`, the three
calls return and `fibonacci(n)` is the sum of `fibonacci(n-1)` and
`fibonacci(n-2)` reduced to 64 bits; for `n ≤ 92` it is the exact sum. -/
theorem fibonacci_recurrence (fuel : Nat) (n : Int) (h2 : 2 ≤ n) (hn : n < INT_MAX)
    (hf : n ≤ fuel) :
    ∃ r r1 r2 : Int, fibonacci fuel n = some r ∧ fibonacci fuel (n - 1) = some r1 ∧
      fibonacci fuel (n - 2) = some r2 ∧ r = wrap64 (r1 + r2) ∧
      (n ≤ 92 → r = r1 + r2) := by
  obtain ⟨k, rfl⟩ : ∃ k : Nat, n = ((k + 2 : Nat) : Int) :=
    ⟨(n - 2).toNat, by push_cast; omega⟩
  have hn' : ((k + 2 : Nat) : Int) < INT_MAX := hn
  unfold INT_MAX at hn'
  have e : fibonacci fuel ((k + 2 : Nat) : Int) = some (wrap64 (fibRef (k + 2))) := by
    have := fibonacci_eq_wrap fuel ((k + 2 : Nat) : Int) (by omega) hn hf
    simpa using this
  have e1 : fibonacci fuel (((k + 2 : Nat) : Int) - 1) = some (wrap64 (fibRef (k + 1))) := by
    have := fibonacci_eq_wrap fuel (((k + 1 : Nat) : Int)) (by omega)
      (by unfold INT_MAX; omega) (by omega)
    rw [show ((k + 2 : Nat) : Int) - 1 = ((k + 1 : Nat) : Int) by push_cast; omega]
    simpa using this
  have e2 : fibonacci fuel (((k + 2 : Nat) : Int) - 2) = some (wrap64 (fibRef k)) := by
    have := fibonacci_eq_wrap fuel ((k : Nat) : Int) (by omega)
      (by unfold INT_MAX; omega) (by omega)
    rw [show ((k + 2 : Nat) : Int) - 2 = ((k : Nat) : Int) by push_cast; omega]
    simpa using this
  refine ⟨_, _, _, e, e1, e2, ?_, ?_⟩
  · rw [wrap64_add_wrap64, fibRef]
  · intro h92
    have hk : k + 2 ≤ 92 := by exact_mod_cast h92
    rw [wrap64_of_isInt64 (isInt64_fibRef hk), wrap64_of_isInt64 (isInt64_fibRef (by omega)),
      wrap64_of_isInt64 (isInt64_fibRef (by omega)), fibRef]

theorem fibonacci_recurrence_witness :
    ∃ r r1 r2 : Int, fibonacci 12 12 = some r ∧ fibonacci 12 (12 - 1) = some r1 ∧
      fibonacci 12 (12 - 2) = some r2 ∧ r = wrap64 (r1 + r2) ∧
      ((12 : Int) ≤ 92 → r = r1 + r2) :=
  fibonacci_recurrence 12 12 (by decide) (by decide) (by decide)

/-- C5, as stated, fails at `n = 93`: `fibonacci(93)` returns a negative
value, the 93rd term of the reference sequence is `12200160415121876738`. -/
theorem fibonacci_ne_fibRef_at_93 :
    fibonacci 93 93 = some (-6246583658587674878) ∧
    fibRef 93 = 12200160415121876738 ∧
    (-6246583658587674878 : Int) ≠ 12200160415121876738 := by
  refine ⟨?_, fibRef_93, by decide⟩
  set_option maxRecDepth 100000 in decide

/-- C5, amended: for `0 ≤ n < INT_MAX` and fuel at least `n`, `fibonacci(n)`
returns the `n`-th term of the reference sequence reduced to 64 bits, and
the term itself for `n ≤ 92`. -/
theorem fibonacci_refines_fibRef (fuel : Nat) (n : Int) (h0 : 0 ≤ n) (hn : n < INT_MAX)
    (hf : n ≤ fuel) :
    fibonacci fuel n = some (wrap64 (fibRef n.toNat)) ∧
    (n ≤ 92 → fibonacci fuel n = some (fibRef n.toNat)) := by
  have h := fibonacci_eq_wrap fuel n h0 hn hf
  refine ⟨h, fun h92 => ?_⟩
  rw [h, wrap64_of_isInt64 (isInt64_fibRef (by omega))]

theorem fibonacci_refines_fibRef_witness :
    fibonacci 10 10 = some (wrap64 (fibRef (10 : Int).toNat)) ∧
    ((10 : Int) ≤ 92 → fibonacci 10 10 = some (fibRef (10 : Int).toNat)) :=
  fibonacci_refines_fibRef 10 10 (by decide) (by decide) (by decide)

/-! ## sumOfSquares -/

theorem sumSq_append (xs ys : List Int) : sumSq (xs ++ ys) = sumSq xs + sumSq ys := by
  simp [sumSq]

theorem sumSq_nonneg (xs : List Int) : 0 ≤ sumSq xs := by
  induction xs with
  | nil => simp [sumSq]
  | cons x xs ih =>
    have h : sumSq (x :: xs) = x * x + sumSq xs := by simp [sumSq]
    rw [h]
    have := mul_self_nonneg x
    omega

theorem sumSq_perm {xs ys : List Int} (h : xs.Perm ys) : sumSq xs = sumSq ys :=
  (h.map _).sum_eq

/-- Body of the loop of `sumOfSquares` at an index inside the array. -/
theorem sumOfSquares_step {arr : List Int} (hall : ∀ x ∈ arr, isInt32 x) (n : Nat)
    (hn : n < arr.length) (s : Int) :
    (arr[n]?).map (fun x => wrap64 (wrap64 s + wrap64 (wrap64 x * wrap64 x)))
      = some (wrap64 (s + sumSq [arr[n]])) := by
  have hx : isInt32 arr[n] := hall _ (List.getElem_mem _)
  rw [List.getElem?_eq_getElem hn, Option.map_some', wrap64_of_isInt32 hx,
    wrap64_add_wrap64]
  simp [sumSq]

/-- Invariant of the loop of `sumOfSquares`: after the indices `0 .. n - 1`
of an array of `int` values the accumulator is the sum of the squares of the
first `n` elements, reduced to 64 bits. -/
theorem sumOfSquares_prefix {arr : List Int} (hall : ∀ x ∈ arr, isInt32 x) :
    ∀ n : Nat, n ≤ arr.length →
      sumOfSquares arr n = some (wrap64 (sumSq (arr.take n))) := by
  intro n
  induction n with
  | zero => intro _; simp [sumOfSquares, sumSq, wrap64]
  | succ n ih =>
    intro hn
    have hlt : n < arr.length := by omega
    have ih' := ih (by omega)
    unfold sumOfSquares at ih' ⊢
    simp only [Int.toNat_ofNat] at ih' ⊢
    rw [List.range_succ, List.foldlM_append, ih']
    simp only [Option.some_bind, List.foldlM_cons, List.foldlM_nil, Option.bind_eq_bind]
    rw [sumOfSquares_step hall n hlt]
    simp only [Option.some_bind, pure]
    rw [List.take_succ, List.getElem?_eq_getElem hlt, sumSq_append]
    rfl

/-- On an array of `int` values and its length, `sumOfSquares` returns the
mathematical sum of squares reduced to 64 bits. -/
theorem sumOfSquares_eq_wrap {arr : List Int} (hall : ∀ x ∈ arr, isInt32 x) :
    sumOfSquares arr arr.length = some (wrap64 (sumSq arr)) := by
  have h := sumOfSquares_prefix hall arr.length le_rfl
  rwa [List.take_length] at h

/-- C6, as stated, fails on `[INT_MIN, INT_MIN]`: the sum of the squares is
`2^63`, the function returns `-2^63`. -/
theorem sumOfSquares_ne_sumSq :
    isInt32 (-2147483648) ∧
    sumOfSquares [-2147483648, -2147483648] 2 = some (-9223372036854775808) ∧
    sumSq [-2147483648, -2147483648] = 9223372036854775808 := by
  decide

/-- C6, amended: on an array of 32-bit values and its length, `sumOfSquares`
returns the mathematical sum of squares reduced to 64 bits, which is the
sum itself whenever that sum is at most `2^63 - 1`. -/
theorem sumOfSquares_spec (arr : List Int) (hall : ∀ x ∈ arr, isInt32 x) :
    sumOfSquares arr arr.length = some (wrap64 (sumSq arr)) ∧
    (sumSq arr ≤ LLONG_MAX → sumOfSquares arr arr.length = some (sumSq arr)) := by
  have h := sumOfSquares_eq_wrap hall
  refine ⟨h, fun hle => ?_⟩
  have h0 := sumSq_nonneg arr
  rw [h, wrap64_of_isInt64]
  unfold isInt64 LLONG_MIN
  exact ⟨by omega, hle⟩

theorem sumOfSquares_spec_witness :
    (∀ x ∈ [3, -4, 2147483647], isInt32 x) ∧
    sumOfSquares [3, -4, 2147483647] ([3, -4, 2147483647] : List Int).length
      = some (wrap64 (sumSq [3, -4, 2147483647])) ∧
    (sumSq [3, -4, 2147483647] ≤ LLONG_MAX →
      sumOfSquares [3, -4, 2147483647] ([3, -4, 2147483647] : List Int).length
        = some (sumSq [3, -4, 2147483647])) :=
  ⟨by decide, sumOfSquares_spec [3, -4, 2147483647] (by decide)⟩

/-- C7: `sumOfSquares` on the empty input with size 0 returns 0, and on
`[3, 4]` it returns 25. -/
theorem sumOfSquares_values :
    sumOfSquares [] 0 = some 0 ∧ sumOfSquares [3, 4] 2 = some 25 := by
  decide

/-- C8: `sumOfSquares` is order-independent: on a list of 32-bit values and
on any permutation of it (each with its length) it returns the same value. -/
theorem sumOfSquares_perm (xs ys : List Int) (hall : ∀ x ∈ xs, isInt32 x)
    (hperm : ys.Perm xs) :
    sumOfSquares ys ys.length = sumOfSquares xs xs.length ∧
    ∃ r : Int, sumOfSquares xs xs.length = some r := by
  have hall' : ∀ y ∈ ys, isInt32 y := fun y hy => hall y (hperm.mem_iff.1 hy)
  rw [sumOfSquares_eq_wrap hall, sumOfSquares_eq_wrap hall', sumSq_perm hperm]
  exact ⟨rfl, _, rfl⟩

theorem sumOfSquares_perm_witness :
    (∀ x ∈ [3, -4, 2147483647], isInt32 x) ∧
    List.Perm [2147483647, 3, -4] [3, -4, 2147483647] ∧
    sumOfSquares [2147483647, 3, -4] ([2147483647, 3, -4] : List Int).length
      = sumOfSquares [3, -4, 2147483647] ([3, -4, 2147483647] : List Int).length ∧
    ∃ r : Int, sumOfSquares [3, -4, 2147483647] ([3, -4, 2147483647] : List Int).length
      = some r :=
  ⟨by decide, by decide,
    sumOfSquares_perm [3, -4, 2147483647] [2147483647, 3, -4] (by decide) (by decide)⟩

/-! ## Text: digits and lines -/

theorem ite_ne_of_ne {c : Prop} [Decidable c] {a b x : Char} (ha : a ≠ x) (hb : b ≠ x) :
    (if c then a else b) ≠ x := by
  split <;> assumption

theorem digitChar_ne_newline (d : Nat) : Nat.digitChar d ≠ '\n' := by
  unfold Nat.digitChar
  repeat (refine ite_ne_of_ne (by decide) ?_)
  decide

theorem toDigitsCore_no_newline (fuel : Nat) :
    ∀ (n : Nat) (ds : List Char), '\n' ∉ ds → '\n' ∉ Nat.toDigitsCore 10 fuel n ds := by
  induction fuel with
  | zero => intro n ds h; simpa [Nat.toDigitsCore] using h
  | succ fuel ih =>
    intro n ds h
    have hd : '\n' ∉ Nat.digitChar (n % 10) :: ds := by
      intro hmem
      rcases List.mem_cons.1 hmem with h1 | h1
      · exact digitChar_ne_newline _ h1.symm
      · exact h h1
    unfold Nat.toDigitsCore
    dsimp only
    split
    · exact hd
    · exact ih _ _ hd

/-- The decimal digits of a natural number hold no line feed. -/
theorem repr_no_newline (n : Nat) : '\n' ∉ (Nat.repr n).data := by
  unfold Nat.repr Nat.toDigits
  exact toDigitsCore_no_newline _ _ _ (by simp)

/-- The text of an integer holds no line feed. -/
theorem showInt_no_newline (x : Int) : '\n' ∉ (showInt x).data := by
  unfold showInt
  split
  · simp only [String.data_append, List.mem_append, not_or]
    exact ⟨by decide, repr_no_newline _⟩
  · exact repr_no_newline _

/-- A text without line feed, followed by a line feed, is the first line. -/
theorem lines_line (a r : List Char) (ha : '\n' ∉ a) :
    lines (a ++ '\n' :: r) = a :: lines r := by
  induction a with
  | nil => simp [lines]
  | cons c a ih =>
    have hc : c ≠ '\n' := fun h => ha (by simp [h])
    have ha' : '\n' ∉ a := fun h => ha (List.mem_cons_of_mem _ h)
    have e : lines (c :: (a ++ '\n' :: r)) =
        match lines (a ++ '\n' :: r) with
        | [] => [[c]]
        | l :: ls => (c :: l) :: ls := by
      rw [lines, if_neg hc]
    rw [List.cons_append, e, ih ha']

theorem lines_line2 (a b r : List Char) (ha : '\n' ∉ a) (hb : '\n' ∉ b) :
    lines (a ++ (b ++ '\n' :: r)) = (a ++ b) :: lines r := by
  rw [← List.append_assoc, lines_line _ _ (by simp [ha, hb])]

theorem lines_line3 (a b c r : List Char) (ha : '\n' ∉ a) (hb : '\n' ∉ b) (hc : '\n' ∉ c) :
    lines (a ++ (b ++ (c ++ '\n' :: r))) = (a ++ b ++ c) :: lines r := by
  rw [← List.append_assoc, ← List.append_assoc, lines_line _ _ (by simp [ha, hb, hc])]

/-- A line whose first character is not `R` does not begin with `RESULT:`. -/
theorem not_result_of_head {l : List Char} {c : Char} (h : l.head? = some c) (hc : c ≠ 'R') :
    "RESULT:".data.isPrefixOf l = false := by
  cases l with
  | nil => simp at h
  | cons d l =>
    simp only [List.head?_cons, Option.some.injEq] at h
    subst h
    have : "RESULT:".data = 'R' :: "ESULT:".data := rfl
    rw [this, List.isPrefixOf]
    have hne : ('R' == d) = false := by simpa using fun h => hc h.symm
    simp [hne]

/-- A line that differs from the success marker at some position is not the
success marker. -/
theorem ne_marker_of_getElem {l : List Char} {c : Char} (i : Nat) (h : l[i]? = some c)
    (hc : successMarker.data[i]? ≠ some c) : l ≠ successMarker.data := by
  intro e
  rw [e] at h
  exact hc h

/-! ## stoi and the operand buffer -/

/-- What `stoi` returns is an `int`. -/
theorem stoi_isInt32 {s : String} {v : Int} (h : stoi s = .ok v) : isInt32 v := by
  unfold stoi at h
  simp only at h
  split_ifs at h with h1 h2 h3 h4
  all_goals first
    | (cases h; done)
    | (cases h; unfold isInt32; assumption)

/-- Inside `argv`, `stoi(argv[i])` throws or yields an `int`. -/
theorem stoiArg_cases (argv : List String) (i : Nat) (hi : i < argv.length) :
    (∃ e, stoiArg argv i = .threw e) ∨ (∃ x, stoiArg argv i = .val x ∧ isInt32 x) := by
  unfold stoiArg
  rw [List.getElem?_eq_getElem hi]
  simp only
  cases hs : stoi argv[i] with
  | error e => exact Or.inl ⟨e, rfl⟩
  | ok x => exact Or.inr ⟨x, rfl, stoi_isInt32 hs⟩

/-- The loop filling the operand buffer, run over indices that are inside
`argv` (shifted by 2) and inside the buffer: it does not fault, it keeps
the length of the buffer, and it appends text without line feed. -/
theorem fillNumbers_cases (argv : List String) :
    ∀ (idx : List Nat) (numbers : List Int) (out : String),
      (∀ i ∈ idx, i + 2 < argv.length ∧ i < numbers.length) →
      (∃ e t, fillNumbers argv idx numbers out = .threw e (out ++ t) ∧ '\n' ∉ t.data) ∨
      (∃ numbers1 t, fillNumbers argv idx numbers out = .filled numbers1 (out ++ t) ∧
        numbers1.length = numbers.length ∧ '\n' ∉ t.data) := by
  intro idx
  induction idx with
  | nil =>
    intro numbers out _
    exact Or.inr ⟨numbers, "", by simp [fillNumbers], rfl, by simp⟩
  | cons i rest ih =>
    intro numbers out h
    obtain ⟨h1, h2⟩ := h i (List.mem_cons_self _ _)
    rcases stoiArg_cases argv (i + 2) h1 with ⟨e, he⟩ | ⟨x, hx, _⟩
    · exact Or.inl ⟨e, "", by simp [fillNumbers, he], by simp⟩
    · have hrest : ∀ j ∈ rest, j + 2 < argv.length ∧ j < (numbers.set i x).length := by
        intro j hj
        have := h j (List.mem_cons_of_mem _ hj)
        simpa using this
      have hstep : fillNumbers argv (i :: rest) numbers out
          = fillNumbers argv rest (numbers.set i x) (out ++ showInt x ++ " ") := by
        simp [fillNumbers, hx, h2]
      have hx' : '\n' ∉ (showInt x).data := showInt_no_newline x
      rcases ih (numbers.set i x) (out ++ showInt x ++ " ") hrest with
        ⟨e, t, ht, hn⟩ | ⟨numbers1, t, ht, hl, hn⟩
      · refine Or.inl ⟨e, showInt x ++ " " ++ t, ?_, ?_⟩
        · rw [hstep, ht]; simp [String.append_assoc]
        · simp only [String.data_append, List.mem_append, not_or]
          exact ⟨⟨hx', by decide⟩, hn⟩
      · refine Or.inr ⟨numbers1, showInt x ++ " " ++ t, ?_, ?_, ?_⟩
        · rw [hstep, ht]; simp [String.append_assoc]
        · simpa using hl
        · simp only [String.data_append, List.mem_append, not_or]
          exact ⟨⟨hx', by decide⟩, hn⟩

/-- With a size within the array, `sumOfSquares` reads inside the array
and returns. -/
theorem sumOfSquares_returns (arr : List Int) :
    ∀ n : Nat, n ≤ arr.length → ∃ r, sumOfSquares arr n = some r := by
  intro n
  induction n with
  | zero => intro _; exact ⟨0, by simp [sumOfSquares]⟩
  | succ n ih =>
    intro hn
    have hlt : n < arr.length := by omega
    obtain ⟨r, hr⟩ := ih (by omega)
    unfold sumOfSquares at hr ⊢
    simp only [Int.toNat_ofNat] at hr ⊢
    rw [List.range_succ, List.foldlM_append, hr]
    simp [List.getElem?_eq_getElem hlt]

/-- Below `INT_MAX`, `fibonacci(n)` returns once the fuel reaches `n`. -/
theorem fibonacci_returns (fuel : Nat) (n : Int) (hn : n < INT_MAX) (hf : n ≤ fuel) :
    ∃ r, fibonacci fuel n = some r := by
  by_cases h0 : 0 ≤ n
  · exact ⟨_, fibonacci_eq_wrap fuel n h0 hn hf⟩
  · exact ⟨0, by simp [fibonacci, show n ≤ 0 by omega]⟩

/-! ## Silent outputs -/

/-- An output is silent when none of its lines begins with `RESULT:` and
none is the success marker. -/
theorem silent_of_lines {out : String} {ls : List (List Char)} (h : lines out.data = ls)
    (hr : ∀ l ∈ ls, "RESULT:".data.isPrefixOf l = false)
    (hm : ∀ l ∈ ls, l ≠ successMarker.data) : silent out := by
  unfold silent resultLines hasSuccessMarker
  rw [h]
  constructor
  · rw [List.filter_eq_nil_iff]
    intro l hl
    simp [hr l hl]
  · rw [Bool.eq_false_iff]
    intro hc
    rw [List.contains_iff_exists_mem_beq] at hc
    obtain ⟨l, hl, hbeq⟩ := hc
    have : successMarker.data = l := by simpa using hbeq
    exact hm l hl this.symm

set_option maxRecDepth 100000 in
theorem silent_printUsage : silent printUsage := by decide

set_option maxRecDepth 100000 in
theorem lines_printUsage_clean :
    (∀ l ∈ lines printUsage.data, "RESULT:".data.isPrefixOf l = false) ∧
    (∀ l ∈ lines printUsage.data, l ≠ successMarker.data) := by
  decide

/-- The output of the `catch` clauses after the banner of a known operation
and, for `squares`, the operands echoed so far (`t`, without line feed). -/
theorem silent_squares_error (t msg : String) (ht : '\n' ∉ t.data)
    (hmsg : '\n' ∉ msg.data) :
    silent (banner "squares" ++ "[C++] Numbers: " ++ t ++ msg ++ endl) := by
  have e : (banner "squares" ++ "[C++] Numbers: " ++ t ++ msg ++ endl).data
      = "[C++] Starting calculation...".data ++ '\n' ::
        ("[C++] Operation: squares".data ++ '\n' ::
          ("[C++] Numbers: ".data ++ (t.data ++ (msg.data ++ '\n' :: [])))) := by
    simp [banner, endl]
  have hl : lines (banner "squares" ++ "[C++] Numbers: " ++ t ++ msg ++ endl).data
      = ["[C++] Starting calculation...".data, "[C++] Operation: squares".data,
        "[C++] Numbers: ".data ++ t.data ++ msg.data] := by
    rw [e, lines_line _ _ (by decide), lines_line _ _ (by decide),
      lines_line3 _ _ _ _ (by decide) ht hmsg]
    rfl
  refine silent_of_lines hl ?_ ?_
  · intro l hl
    simp only [List.mem_cons, List.mem_singleton, List.not_mem_nil, or_false] at hl
    rcases hl with rfl | rfl | rfl
    · decide
    · decide
    · exact not_result_of_head (c := '[') rfl (by decide)
  · intro l hl
    simp only [List.mem_cons, List.mem_singleton, List.not_mem_nil, or_false] at hl
    rcases hl with rfl | rfl | rfl
    · decide
    · decide
    · exact ne_marker_of_getElem (c := 'N') 6 rfl (by decide)

/-- The output of the unknown-operation branch, for an operation name
without line feed. -/
theorem silent_unknown (op : String) (hop : '\n' ∉ op.data) :
    silent (banner op ++ "Error: Unknown operation '" ++ op ++ "'" ++ endl ++ printUsage) := by
  have e : (banner op ++ "Error: Unknown operation '" ++ op ++ "'" ++ endl ++ printUsage).data
      = "[C++] Starting calculation...".data ++ '\n' ::
        ("[C++] Operation: ".data ++ (op.data ++ '\n' ::
          ("Error: Unknown operation '".data ++ (op.data ++ ("'".data ++ '\n' ::
            printUsage.data))))) := by
    simp [banner, endl]
  have hl : lines (banner op ++ "Error: Unknown operation '" ++ op ++ "'" ++ endl ++
      printUsage).data = "[C++] Starting calculation...".data ::
        ("[C++] Operation: ".data ++ op.data) ::
        ("Error: Unknown operation '".data ++ op.data ++ "'".data) ::
        lines printUsage.data := by
    rw [e, lines_line _ _ (by decide), lines_line2 _ _ _ (by decide) hop,
      lines_line3 _ _ _ _ (by decide) hop (by decide)]
  refine silent_of_lines hl ?_ ?_
  · intro l hl
    simp only [List.mem_cons] at hl
    rcases hl with rfl | rfl | rfl | hl
    · decide
    · exact not_result_of_head (c := '[') rfl (by decide)
    · exact not_result_of_head (c := 'E') rfl (by decide)
    · exact lines_printUsage_clean.1 l hl
  · intro l hl
    simp only [List.mem_cons] at hl
    rcases hl with rfl | rfl | rfl | hl
    · decide
    · exact ne_marker_of_getElem (c := 'O') 6 rfl (by decide)
    · exact ne_marker_of_getElem (c := 'E') 0 rfl (by decide)
    · exact lines_printUsage_clean.2 l hl

/-! ## The branches of main -/

theorem report_wellReported (elapsed : Nat) (out : String) :
    (report elapsed out).wellReported := by
  simp [report, Outcome.wellReported]

theorem handler_wellReported (e : StoiError) (out : String)
    (h1 : silent (out ++ "Error: Invalid number format" ++ endl))
    (h2 : silent (out ++ "Error: Number out of range" ++ endl)) :
    (handler e out).wellReported := by
  cases e
  · exact ⟨Or.inr rfl, fun _ => h1⟩
  · exact ⟨Or.inr rfl, fun _ => h2⟩

set_option maxRecDepth 100000 in
theorem silent_banner_errors :
    silent (banner "add" ++ "Error: Add operation requires exactly 2 numbers" ++ endl) ∧
    silent (banner "add" ++ "Error: Invalid number format" ++ endl) ∧
    silent (banner "add" ++ "Error: Number out of range" ++ endl) ∧
    silent (banner "multiply" ++ "Error: Multiply operation requires exactly 2 numbers" ++ endl) ∧
    silent (banner "multiply" ++ "Error: Invalid number format" ++ endl) ∧
    silent (banner "multiply" ++ "Error: Number out of range" ++ endl) ∧
    silent (banner "fibonacci" ++ "Error: Fibonacci operation requires exactly 1 number" ++ endl) ∧
    silent (banner "fibonacci" ++ "Error: Invalid number format" ++ endl) ∧
    silent (banner "fibonacci" ++ "Error: Number out of range" ++ endl) ∧
    silent (banner "fibonacci" ++ "Error: Fibonacci position must be non-negative" ++ endl) := by
  decide

/-- The `add` branch returns 0 or 1 and is silent when it returns 1. -/
theorem mainAdd_wellReported (elapsed : Nat) (argv : List String) :
    (mainAdd elapsed argv (banner "add")).wellReported := by
  unfold mainAdd
  simp only
  split
  · exact ⟨Or.inr rfl, fun _ => silent_banner_errors.1⟩
  · rename_i h
    have hlen : argv.length = 4 := by
      have : (argv.length : Int) = 4 := not_not.1 h
      exact_mod_cast this
    have hh := fun e => handler_wellReported e (banner "add") silent_banner_errors.2.1
      silent_banner_errors.2.2.1
    rcases stoiArg_cases argv 2 (by omega) with ⟨e, he⟩ | ⟨a, ha, _⟩
    · rw [he]; exact hh e
    · rcases stoiArg_cases argv 3 (by omega) with ⟨e, he⟩ | ⟨b, hb, _⟩
      · rw [ha, he]; exact hh e
      · rw [ha, hb]; exact report_wellReported _ _

/-- The `multiply` branch returns 0 or 1 and is silent when it returns 1. -/
theorem mainMultiply_wellReported (elapsed : Nat) (argv : List String) :
    (mainMultiply elapsed argv (banner "multiply")).wellReported := by
  unfold mainMultiply
  simp only
  split
  · exact ⟨Or.inr rfl, fun _ => silent_banner_errors.2.2.2.1⟩
  · rename_i h
    have hlen : argv.length = 4 := by
      have : (argv.length : Int) = 4 := not_not.1 h
      exact_mod_cast this
    have hh := fun e => handler_wellReported e (banner "multiply")
      silent_banner_errors.2.2.2.2.1 silent_banner_errors.2.2.2.2.2.1
    rcases stoiArg_cases argv 2 (by omega) with ⟨e, he⟩ | ⟨a, ha, _⟩
    · rw [he]; exact hh e
    · rcases stoiArg_cases argv 3 (by omega) with ⟨e, he⟩ | ⟨b, hb, _⟩
      · rw [ha, he]; exact hh e
      · rw [ha, hb]; exact report_wellReported _ _

/-- The `fibonacci` branch: either the call of `fibonacci` ran out of fuel
on a parsed operand `n ≥ 0`, or the branch returns 0 or 1 and is silent when
it returns 1. -/
theorem mainFibonacci_cases (fuel elapsed : Nat) (argv : List String) :
    (mainFibonacci fuel elapsed argv (banner "fibonacci") = none ∧ argv.length = 3 ∧
      ∃ n, stoiArg argv 2 = .val n ∧ isInt32 n ∧ fibonacci fuel n = none) ∨
    (∃ o, mainFibonacci fuel elapsed argv (banner "fibonacci") = some o ∧ o.wellReported) := by
  unfold mainFibonacci
  simp only
  split
  · exact Or.inr ⟨_, rfl, Or.inr rfl, fun _ => silent_banner_errors.2.2.2.2.2.2.1⟩
  · rename_i h
    have hlen : argv.length = 3 := by
      have : (argv.length : Int) = 3 := not_not.1 h
      exact_mod_cast this
    have hh := fun e => handler_wellReported e (banner "fibonacci")
      silent_banner_errors.2.2.2.2.2.2.2.1 silent_banner_errors.2.2.2.2.2.2.2.2.1
    rcases stoiArg_cases argv 2 (by omega) with ⟨e, he⟩ | ⟨n, hn, hn32⟩
    · rw [he]; exact Or.inr ⟨_, rfl, hh e⟩
    · rw [hn]
      simp only
      split
      · exact Or.inr ⟨_, rfl, Or.inr rfl, fun _ => silent_banner_errors.2.2.2.2.2.2.2.2.2⟩
      · cases hf : fibonacci fuel n with
        | none => exact Or.inl ⟨rfl, hlen, n, rfl, hn32, hf⟩
        | some r => exact Or.inr ⟨_, rfl, report_wellReported _ _⟩

/-- The `squares` branch, entered with `argc ≥ 3`, returns 0 or 1 and is
silent when it returns 1: no access leaves `argv` or the operand buffer. -/
theorem mainSquares_wellReported (elapsed : Nat) (argv : List String)
    (hlen : 3 ≤ argv.length) :
    (mainSquares elapsed argv (banner "squares")).wellReported := by
  unfold mainSquares
  have hge : ¬ ((argv.length : Int) < 3) := by omega
  have hcount : ((argv.length : Int) - 2).toNat = argv.length - 2 := by omega
  simp only [hge, if_false, hcount]
  have hidx : ∀ i ∈ List.range (argv.length - 2),
      i + 2 < argv.length ∧ i < (List.replicate (argv.length - 2) (0 : Int)).length := by
    intro i hi
    rw [List.mem_range] at hi
    simp only [List.length_replicate]
    omega
  rcases fillNumbers_cases argv _ _ (banner "squares" ++ "[C++] Numbers: ") hidx with
    ⟨e, t, ht, hn⟩ | ⟨numbers1, t, ht, hl, hn⟩
  · rw [ht]
    exact handler_wellReported e _ (silent_squares_error t _ hn (by decide))
      (silent_squares_error t _ hn (by decide))
  · rw [ht]
    have hsz : ((argv.length : Int) - 2) = ((argv.length - 2 : Nat) : Int) := by omega
    obtain ⟨r, hr⟩ := sumOfSquares_returns numbers1 (argv.length - 2)
      (by rw [hl, List.length_replicate])
    simp only [hsz, hr]
    exact report_wellReported _ _

/-- Every run of `main`: either it is the `fibonacci` branch with the call
of `fibonacci` out of fuel, or `main` returns 0 or 1 and, when it returns 1
with an operation name free of line feed, the output is silent. -/
theorem main_cases (fuel elapsed : Nat) (argv : List String) :
    (main fuel elapsed argv = none ∧ argv.length = 3 ∧ argv[1]? = some "fibonacci" ∧
      ∃ n, stoiArg argv 2 = .val n ∧ isInt32 n ∧ fibonacci fuel n = none) ∨
    (∃ code out, main fuel elapsed argv = some (.exit code out) ∧ (code = 0 ∨ code = 1) ∧
      (code ≠ 0 → (∀ op, argv[1]? = some op → '\n' ∉ op.data) → silent out)) := by
  have lift : ∀ o : Outcome, o.wellReported → ∀ Q : Prop,
      ∃ code out, some o = some (Outcome.exit code out) ∧ (code = 0 ∨ code = 1) ∧
        (code ≠ 0 → Q → silent out) := by
    intro o ho Q
    cases o with
    | fault => exact ho.elim
    | exit code out => exact ⟨code, out, rfl, ho.1, fun hc _ => ho.2 hc⟩
  unfold main
  simp only
  split
  · exact Or.inr ⟨1, printUsage, rfl, Or.inr rfl, fun _ _ => silent_printUsage⟩
  · rename_i h
    have hlen : 3 ≤ argv.length := by
      have : ¬ ((argv.length : Int) < 3) := h
      omega
    have h1 : argv[1]? = some argv[1] := List.getElem?_eq_getElem (by omega)
    rw [h1]
    simp only
    generalize argv[1] = operation at h1 ⊢
    split
    · rename_i hop
      subst hop
      exact Or.inr (lift _ (mainAdd_wellReported elapsed argv) _)
    · split
      · rename_i hop
        subst hop
        exact Or.inr (lift _ (mainMultiply_wellReported elapsed argv) _)
      · split
        · rename_i hop
          subst hop
          rcases mainFibonacci_cases fuel elapsed argv with ⟨hm, hl3, hn⟩ | ⟨o, ho, hw⟩
          · exact Or.inl ⟨hm, hl3, rfl, hn⟩
          · rw [ho]
            exact Or.inr (lift o hw _)
        · split
          · rename_i hop
            subst hop
            exact Or.inr (lift _ (mainSquares_wellReported elapsed argv hlen) _)
          · exact Or.inr ⟨1, _, rfl, Or.inr rfl, fun _ hnl => silent_unknown operation (hnl _ rfl)⟩

/-! ## main: exit status and output -/

/-- C9, as stated, fails: with an operation name that holds a line feed
followed by `RESULT:`, the run returns 1 and its output has two lines
beginning with `RESULT:`. -/
theorem main_failure_with_result_line :
    ∃ out, main 0 0 ["./calculator", "x\nRESULT: 1", "1"] = some (.exit 1 out) ∧
      resultLines out = ["RESULT: 1".data, "RESULT: 1'".data] := by
  refine ⟨_, rfl, ?_⟩
  set_option maxRecDepth 100000 in decide

/-- C9, amended: for every argument vector other than `fibonacci` with an
operand read as `INT_MAX`, `main` returns, and whenever it returns the
status is 0 or 1; when the status is not 0 and the operation name holds no
line feed, no output line begins with `RESULT:` and none is the success
marker. -/
theorem main_exit_status (elapsed : Nat) (argv : List String)
    (hfib : isFibonacciIntMax argv = false) :
    (∃ fuel code out, main fuel elapsed argv = some (.exit code out)) ∧
    (∀ fuel code out, main fuel elapsed argv = some (.exit code out) →
      (code = 0 ∨ code = 1) ∧
      (code ≠ 0 → (∀ op, argv[1]? = some op → '\n' ∉ op.data) →
        resultLines out = [] ∧ hasSuccessMarker out = false)) := by
  constructor
  · rcases main_cases 2147483647 elapsed argv with ⟨_, hl3, hop, n, hn, hn32, hnone⟩ | h
    · exfalso
      have hne : n ≠ INT_MAX := by
        intro hmax
        subst hmax
        simp [isFibonacciIntMax, hl3, hop, hn] at hfib
      have hlt : n < INT_MAX := lt_of_le_of_ne hn32.2 hne
      obtain ⟨r, hr⟩ := fibonacci_returns 2147483647 n hlt (by unfold INT_MAX at hlt; omega)
      rw [hr] at hnone
      cases hnone
    · obtain ⟨code, out, hm, _⟩ := h
      exact ⟨_, code, out, hm⟩
  · intro fuel code out hm
    rcases main_cases fuel elapsed argv with ⟨hnone, _⟩ | ⟨code1, out1, hm1, hc, hs⟩
    · rw [hnone] at hm
      cases hm
    · rw [hm1] at hm
      cases hm
      exact ⟨hc, hs⟩

theorem main_exit_status_witness :
    isFibonacciIntMax ["./calculator", "add", "2", "three"] = false ∧
    main 0 0 ["./calculator", "add", "2", "three"] = some (.exit 1
      "[C++] Starting calculation...\n[C++] Operation: add\nError: Invalid number format\n") ∧
    (∃ fuel code out,
      main fuel 0 ["./calculator", "add", "2", "three"] = some (.exit code out)) ∧
    (∀ fuel code out,
      main fuel 0 ["./calculator", "add", "2", "three"] = some (.exit code out) →
      (code = 0 ∨ code = 1) ∧
      (code ≠ 0 →
        (∀ op, ["./calculator", "add", "2", "three"][1]? = some op → '\n' ∉ op.data) →
        resultLines out = [] ∧ hasSuccessMarker out = false)) :=
  ⟨by decide, by decide,
    main_exit_status 0 ["./calculator", "add", "2", "three"] (by decide)⟩

/-- C10: on the valid invocation `fibonacci 2147483647` the run of `main`
does not return, whatever the fuel: the loop counter of `fibonacci` passes
`INT_MAX` and the condition `i <= n` never fails. -/
theorem main_fibonacci_INT_MAX_no_return (fuel elapsed : Nat) :
    stoi "2147483647" = .ok INT_MAX ∧
    main fuel elapsed ["./calculator", "fibonacci", "2147483647"] = none := by
  have hs : stoiArg ["./calculator", "fibonacci", "2147483647"] 2 = .val INT_MAX := by decide
  refine ⟨rfl, ?_⟩
  have hb : ¬ (INT_MAX < 0) := by decide
  simp [main, mainFibonacci, hs, hb, fibonacci_INT_MAX]

/-! ## Successful runs -/

theorem lines_terminated_ne_nil (a : List Char) : lines (a ++ ['\n']) ≠ [] := by
  induction a with
  | nil => simp [lines]
  | cons c a ih =>
    by_cases hc : c = '\n'
    · simp [lines, hc]
    · rw [List.cons_append, lines, if_neg hc]
      cases h : lines (a ++ ['\n']) with
      | nil => exact (ih h).elim
      | cons l ls => simp

/-- After a text that ends with a line feed, the lines of what follows are
appended to its lines. -/
theorem lines_append_terminated (a y : List Char) :
    lines (a ++ '\n' :: y) = lines (a ++ ['\n']) ++ lines y := by
  induction a with
  | nil => simp [lines]
  | cons c a ih =>
    by_cases hc : c = '\n'
    · simp [lines, hc, ih]
    · rw [List.cons_append, List.cons_append, lines, if_neg hc, lines, if_neg hc, ih]
      cases h : lines (a ++ ['\n']) with
      | nil => exact (lines_terminated_ne_nil a h).elim
      | cons l ls => simp

theorem showMillis_no_newline (us : Nat) : '\n' ∉ (showMillis us).data := by
  unfold showMillis
  simp only [String.data_append, List.mem_append, not_or]
  exact ⟨⟨⟨⟨repr_no_newline _, by decide⟩, repr_no_newline _⟩, repr_no_newline _⟩,
    repr_no_newline _⟩

theorem result_prefix (r : List Char) : "RESULT:".data.isPrefixOf ("RESULT: ".data ++ r) = true := by
  have h : "RESULT: ".data ++ r = "RESULT:".data ++ (' ' :: r) := rfl
  rw [h]
  simp

/-- The report after a diagnostic trace `pre` that ends with a line feed and
has no line beginning with `RESULT:`: status 0, one line beginning with
`RESULT:`, which is `RESULT: ` and the decimal text of `r`, and the success
marker as the last line. -/
theorem report_lines (elapsed : Nat) (pre : String) (p : List Char) (r : Int)
    (hp : pre.data = p ++ ['\n'])
    (hclean : ∀ l ∈ lines pre.data, "RESULT:".data.isPrefixOf l = false) :
    ∃ out, report elapsed (pre ++ "RESULT: " ++ showInt r ++ endl) = .exit 0 out ∧
      resultLines out = [("RESULT: " ++ showInt r).data] ∧
      (lines out.data).getLast? = some successMarker.data := by
  refine ⟨_, rfl, ?_⟩
  have e : (pre ++ "RESULT: " ++ showInt r ++ endl ++ "[C++] Execution time: " ++
      showMillis elapsed ++ "ms" ++ endl ++ "[C++] Calculation completed successfully!" ++
      endl).data
      = p ++ '\n' :: (("RESULT: " ++ showInt r).data ++ '\n' ::
          (("[C++] Execution time: ".data ++ (showMillis elapsed).data ++ "ms".data) ++ '\n' ::
            (successMarker.data ++ '\n' :: []))) := by
    simp [endl, hp, successMarker]
  have hl : lines (pre ++ "RESULT: " ++ showInt r ++ endl ++ "[C++] Execution time: " ++
      showMillis elapsed ++ "ms" ++ endl ++ "[C++] Calculation completed successfully!" ++
      endl).data
      = lines pre.data ++ [("RESULT: " ++ showInt r).data,
          "[C++] Execution time: ".data ++ (showMillis elapsed).data ++ "ms".data,
          successMarker.data] := by
    have hr : '\n' ∉ ("RESULT: " ++ showInt r).data := by
      simp only [String.data_append, List.mem_append, not_or]
      exact ⟨by decide, showInt_no_newline r⟩
    have ht : '\n' ∉ "[C++] Execution time: ".data ++ (showMillis elapsed).data ++ "ms".data := by
      simp only [List.mem_append, not_or]
      exact ⟨⟨by decide, showMillis_no_newline elapsed⟩, by decide⟩
    rw [e, lines_append_terminated, ← hp, lines_line _ _ hr, lines_line _ _ ht,
      lines_line _ _ (by decide)]
    rfl
  constructor
  · unfold resultLines
    have hf : (lines pre.data).filter (fun l => "RESULT:".data.isPrefixOf l) = [] := by
      rw [List.filter_eq_nil_iff]
      intro l hl
      simp [hclean l hl]
    have h1 : "RESULT:".data.isPrefixOf ("RESULT: " ++ showInt r).data = true :=
      result_prefix _
    have h2 : "RESULT:".data.isPrefixOf
        ("[C++] Execution time: ".data ++ (showMillis elapsed).data ++ "ms".data) = false :=
      not_result_of_head (c := '[') rfl (by decide)
    have h3 : "RESULT:".data.isPrefixOf successMarker.data = false := by decide
    show List.filter _ (lines (pre ++ "RESULT: " ++ showInt r ++ endl ++
      "[C++] Execution time: " ++ showMillis elapsed ++ "ms" ++ endl ++
      "[C++] Calculation completed successfully!" ++ endl).data) = _
    rw [hl, List.filter_append, hf]
    simp only [List.filter_cons, h1, h2, h3, List.filter_nil, if_true, Bool.false_eq_true,
      if_false, List.nil_append]
  · show (lines (pre ++ "RESULT: " ++ showInt r ++ endl ++
      "[C++] Execution time: " ++ showMillis elapsed ++ "ms" ++ endl ++
      "[C++] Calculation completed successfully!" ++ endl).data).getLast? = _
    rw [hl]
    simp

theorem stoiArg_val {argv : List String} {i : Nat} {s : String} {x : Int}
    (hs : argv[i]? = some s) (hx : stoi s = .ok x) : stoiArg argv i = .val x := by
  simp [stoiArg, hs, hx]

/-- The banner of an operation name without line feed is two full lines. -/
theorem lines_banner_append (op : String) (hop : '\n' ∉ op.data) (y : List Char) :
    lines ((banner op).data ++ y)
      = "[C++] Starting calculation...".data :: ("[C++] Operation: ".data ++ op.data) ::
        lines y := by
  have e : (banner op).data ++ y = "[C++] Starting calculation...".data ++ '\n' ::
      ("[C++] Operation: ".data ++ (op.data ++ '\n' :: y)) := by
    simp [banner, endl]
  rw [e, lines_line _ _ (by decide), lines_line2 _ _ _ (by decide) hop]

/-- The trace of a successful run, banner and one diagnostic line: it ends
with a line feed and none of its lines begins with `RESULT:`. -/
theorem trace_clean (op : String) (hop : '\n' ∉ op.data) (line : List Char)
    (hline : '\n' ∉ line) (hhead : line.head? = some '[') :
    ∀ l ∈ lines ((banner op).data ++ (line ++ ['\n'])), "RESULT:".data.isPrefixOf l = false := by
  rw [lines_banner_append op hop, lines_line _ _ hline]
  intro l hl
  simp only [lines, List.mem_cons, List.not_mem_nil, or_false] at hl
  rcases hl with rfl | rfl | rfl
  · decide
  · exact not_result_of_head (c := '[') rfl (by decide)
  · exact not_result_of_head hhead (by decide)

/-- A valid `add` invocation: `main` returns 0, the one line beginning with
`RESULT:` carries the decimal text of `add(a, b)`, the last line is the
success marker. -/
theorem main_add_reports (fuel elapsed : Nat) (prog sa sb : String) (a b : Int)
    (ha : stoi sa = .ok a) (hb : stoi sb = .ok b) :
    ∃ out, main fuel elapsed [prog, "add", sa, sb] = some (.exit 0 out) ∧
      resultLines out = [("RESULT: " ++ showInt (add a b)).data] ∧
      (lines out.data).getLast? = some successMarker.data := by
  have h2 : stoiArg [prog, "add", sa, sb] 2 = .val a := stoiArg_val rfl ha
  have h3 : stoiArg [prog, "add", sa, sb] 3 = .val b := stoiArg_val rfl hb
  have hmain : main fuel elapsed [prog, "add", sa, sb] = some (report elapsed
      (banner "add" ++ "[C++] Calculating: " ++ showInt a ++ " + " ++ showInt b ++ endl ++
        "RESULT: " ++ showInt (add a b) ++ endl)) := by
    simp [main, mainAdd, h2, h3]
  have hline : '\n' ∉ "[C++] Calculating: ".data ++ (showInt a).data ++ " + ".data ++
      (showInt b).data := by
    simp only [List.mem_append, not_or]
    exact ⟨⟨⟨by decide, showInt_no_newline a⟩, by decide⟩, showInt_no_newline b⟩
  have hpre : (banner "add" ++ "[C++] Calculating: " ++ showInt a ++ " + " ++ showInt b ++
      endl).data = ((banner "add").data ++ ("[C++] Calculating: ".data ++ (showInt a).data ++
        " + ".data ++ (showInt b).data)) ++ ['\n'] := by
    simp [endl]
  obtain ⟨out, ho, hr, hlast⟩ := report_lines elapsed _ _ (add a b) hpre (by
    rw [hpre, List.append_assoc]
    exact trace_clean "add" (by decide) _ hline rfl)
  exact ⟨out, hmain.trans (congrArg some ho), hr, hlast⟩

/-- A valid `multiply` invocation: `main` returns 0, the one line beginning
with `RESULT:` carries the decimal text of `multiply(a, b)`, the last line
is the success marker. -/
theorem main_multiply_reports (fuel elapsed : Nat) (prog sa sb : String) (a b : Int)
    (ha : stoi sa = .ok a) (hb : stoi sb = .ok b) :
    ∃ out, main fuel elapsed [prog, "multiply", sa, sb] = some (.exit 0 out) ∧
      resultLines out = [("RESULT: " ++ showInt (multiply a b)).data] ∧
      (lines out.data).getLast? = some successMarker.data := by
  have h2 : stoiArg [prog, "multiply", sa, sb] 2 = .val a := stoiArg_val rfl ha
  have h3 : stoiArg [prog, "multiply", sa, sb] 3 = .val b := stoiArg_val rfl hb
  have hmain : main fuel elapsed [prog, "multiply", sa, sb] = some (report elapsed
      (banner "multiply" ++ "[C++] Calculating: " ++ showInt a ++ " * " ++ showInt b ++ endl ++
        "RESULT: " ++ showInt (multiply a b) ++ endl)) := by
    simp [main, mainMultiply, h2, h3]
  have hline : '\n' ∉ "[C++] Calculating: ".data ++ (showInt a).data ++ " * ".data ++
      (showInt b).data := by
    simp only [List.mem_append, not_or]
    exact ⟨⟨⟨by decide, showInt_no_newline a⟩, by decide⟩, showInt_no_newline b⟩
  have hpre : (banner "multiply" ++ "[C++] Calculating: " ++ showInt a ++ " * " ++
      showInt b ++ endl).data = ((banner "multiply").data ++ ("[C++] Calculating: ".data ++
        (showInt a).data ++ " * ".data ++ (showInt b).data)) ++ ['\n'] := by
    simp [endl]
  obtain ⟨out, ho, hr, hlast⟩ := report_lines elapsed _ _ (multiply a b) hpre (by
    rw [hpre, List.append_assoc]
    exact trace_clean "multiply" (by decide) _ hline rfl)
  exact ⟨out, hmain.trans (congrArg some ho), hr, hlast⟩

/-- A valid `fibonacci` invocation with operand below `INT_MAX`: once the
fuel reaches `n`, `fibonacci(n)` returns some `r`, `main` returns 0, the one
line beginning with `RESULT:` carries the decimal text of `r`, the last
line is the success marker. -/
theorem main_fibonacci_reports (fuel elapsed : Nat) (prog sn : String) (n : Int)
    (hs : stoi sn = .ok n) (h0 : 0 ≤ n) (hn : n < INT_MAX) (hf : n ≤ fuel) :
    ∃ r out, fibonacci fuel n = some r ∧
      main fuel elapsed [prog, "fibonacci", sn] = some (.exit 0 out) ∧
      resultLines out = [("RESULT: " ++ showInt r).data] ∧
      (lines out.data).getLast? = some successMarker.data := by
  obtain ⟨r, hr⟩ := fibonacci_returns fuel n hn hf
  have h2 : stoiArg [prog, "fibonacci", sn] 2 = .val n := stoiArg_val rfl hs
  have hneg : ¬ (n < 0) := by omega
  have hmain : main fuel elapsed [prog, "fibonacci", sn] = some (report elapsed
      (banner "fibonacci" ++ "[C++] Calculating: fibonacci(" ++ showInt n ++ ")" ++ endl ++
        "RESULT: " ++ showInt r ++ endl)) := by
    simp [main, mainFibonacci, h2, hneg, hr]
  have hline : '\n' ∉ "[C++] Calculating: fibonacci(".data ++ (showInt n).data ++ ")".data := by
    simp only [List.mem_append, not_or]
    exact ⟨⟨by decide, showInt_no_newline n⟩, by decide⟩
  have hpre : (banner "fibonacci" ++ "[C++] Calculating: fibonacci(" ++ showInt n ++ ")" ++
      endl).data = ((banner "fibonacci").data ++ ("[C++] Calculating: fibonacci(".data ++
        (showInt n).data ++ ")".data)) ++ ['\n'] := by
    simp [endl]
  obtain ⟨out, ho, hres, hlast⟩ := report_lines elapsed _ _ r hpre (by
    rw [hpre, List.append_assoc]
    exact trace_clean "fibonacci" (by decide) _ hline rfl)
  exact ⟨r, out, hr, hmain.trans (congrArg some ho), hres, hlast⟩

/-- The loop filling the operand buffer, when every operand text is read by
`stoi`: started at index `k` with the first `k` cells already holding the
first `k` values, it leaves the buffer holding all the values, and it
appends text without line feed. -/
theorem fillNumbers_filled (prog op : String) (ss : List String) (xs : List Int)
    (h : List.Forall₂ (fun s x => stoi s = .ok x) ss xs) :
    ∀ (m k : Nat) (numbers : List Int) (out : String),
      k + m = ss.length → numbers.length = ss.length → numbers.take k = xs.take k →
      ∃ t, fillNumbers (prog :: op :: ss) (List.range' k m) numbers out
          = .filled xs (out ++ t) ∧ '\n' ∉ t.data := by
  have hlen : ss.length = xs.length := h.length_eq
  intro m
  induction m with
  | zero =>
    intro k numbers out hk hn htake
    refine ⟨"", ?_, by simp⟩
    have e1 : numbers.take k = numbers := List.take_of_length_le (by omega)
    have e2 : xs.take k = xs := List.take_of_length_le (by omega)
    rw [e1, e2] at htake
    simp [fillNumbers, htake]
  | succ m ih =>
    intro k numbers out hk hn htake
    have hks : k < ss.length := by omega
    have hkx : k < xs.length := by omega
    have hstoi : stoi ss[k] = .ok xs[k] := h.get hks hkx
    have harg : stoiArg (prog :: op :: ss) (k + 2) = .val xs[k] :=
      stoiArg_val (by simp [List.getElem?_eq_getElem hks]) hstoi
    have hstep : fillNumbers (prog :: op :: ss) (List.range' k (m + 1)) numbers out
        = fillNumbers (prog :: op :: ss) (List.range' (k + 1) m) (numbers.set k xs[k])
            (out ++ showInt xs[k] ++ " ") := by
      rw [List.range'_succ, fillNumbers, harg]
      simp only
      rw [if_pos (by omega)]
    have htake1 : (numbers.set k xs[k]).take (k + 1) = xs.take (k + 1) := by
      apply List.ext_getElem?
      intro i
      rw [List.getElem?_take, List.getElem?_take]
      by_cases hi : i < k + 1
      · rw [if_pos hi, if_pos hi]
        by_cases hik : i = k
        · subst hik
          rw [List.getElem?_set_self (by omega), List.getElem?_eq_getElem hkx]
        · rw [List.getElem?_set_ne (by omega)]
          have hlt : i < k := by omega
          have := congrArg (fun l => l[i]?) htake
          simpa [List.getElem?_take, hlt] using this
      · rw [if_neg hi, if_neg hi]
    obtain ⟨t, ht, hnl⟩ := ih (k + 1) (numbers.set k xs[k]) (out ++ showInt xs[k] ++ " ")
      (by omega) (by simpa using hn) htake1
    refine ⟨showInt xs[k] ++ " " ++ t, ?_, ?_⟩
    · rw [hstep, ht]
      simp [String.append_assoc]
    · simp only [String.data_append, List.mem_append, not_or]
      exact ⟨⟨showInt_no_newline _, by decide⟩, hnl⟩

/-- A valid `squares` invocation, one operand or more, each read by `stoi`:
`sumOfSquares` on the operands returns some `r`, `main` returns 0, the one
line beginning with `RESULT:` carries the decimal text of `r`, the last
line is the success marker. -/
theorem main_squares_reports (fuel elapsed : Nat) (prog : String) (ss : List String)
    (xs : List Int) (hne : ss ≠ [])
    (h : List.Forall₂ (fun s x => stoi s = .ok x) ss xs) :
    ∃ r out, sumOfSquares xs xs.length = some r ∧
      main fuel elapsed (prog :: "squares" :: ss) = some (.exit 0 out) ∧
      resultLines out = [("RESULT: " ++ showInt r).data] ∧
      (lines out.data).getLast? = some successMarker.data := by
  have hlen : ss.length = xs.length := h.length_eq
  have hpos : 0 < ss.length := List.length_pos.2 hne
  obtain ⟨r, hr⟩ := sumOfSquares_returns xs xs.length le_rfl
  obtain ⟨t, ht, hnl⟩ := fillNumbers_filled prog "squares" ss xs h ss.length 0
    (List.replicate ss.length 0) (banner "squares" ++ "[C++] Numbers: ") (by omega)
    (by simp) (by simp)
  have hge : ¬ (((prog :: "squares" :: ss).length : Int) < 3) := by
    simp only [List.length_cons]
    push_cast
    omega
  have hcount : (((prog :: "squares" :: ss).length : Int) - 2).toNat = ss.length := by
    simp only [List.length_cons]
    push_cast
    omega
  have hsize : (((prog :: "squares" :: ss).length : Int) - 2) = (xs.length : Int) := by
    simp only [List.length_cons]
    push_cast
    omega
  have hmain : main fuel elapsed (prog :: "squares" :: ss) = some (report elapsed
      (banner "squares" ++ "[C++] Numbers: " ++ t ++ endl ++
        "[C++] Calculating sum of squares..." ++ endl ++ "RESULT: " ++ showInt r ++ endl)) := by
    have hm : mainSquares elapsed (prog :: "squares" :: ss) (banner "squares")
        = report elapsed (banner "squares" ++ "[C++] Numbers: " ++ t ++ endl ++
          "[C++] Calculating sum of squares..." ++ endl ++ "RESULT: " ++ showInt r ++ endl) := by
      unfold mainSquares
      simp only [hge, if_false, hcount]
      rw [← List.range_eq_range'] at ht
      rw [ht]
      simp only [hsize, hr]
    unfold main
    simp only [hge, if_false]
    simp [hm]
  have hline : '\n' ∉ "[C++] Numbers: ".data ++ t.data := by
    simp only [List.mem_append, not_or]
    exact ⟨by decide, hnl⟩
  have hpre : (banner "squares" ++ "[C++] Numbers: " ++ t ++ endl ++
      "[C++] Calculating sum of squares..." ++ endl).data
      = ((banner "squares").data ++ (("[C++] Numbers: ".data ++ t.data) ++ '\n' ::
          "[C++] Calculating sum of squares...".data)) ++ ['\n'] := by
    simp [endl]
  obtain ⟨out, ho, hres, hlast⟩ := report_lines elapsed _ _ r hpre (by
    have e2 : ((banner "squares").data ++ (("[C++] Numbers: ".data ++ t.data) ++ '\n' ::
        "[C++] Calculating sum of squares...".data)) ++ ['\n']
        = (banner "squares").data ++ (("[C++] Numbers: ".data ++ t.data) ++ '\n' ::
          ("[C++] Calculating sum of squares...".data ++ '\n' :: [])) := by
      simp
    rw [hpre, e2, lines_banner_append "squares" (by decide), lines_line _ _ hline,
      lines_line _ _ (by decide)]
    intro l hl
    simp only [lines, List.mem_cons, List.not_mem_nil, or_false] at hl
    rcases hl with rfl | rfl | rfl | rfl
    · decide
    · decide
    · exact not_result_of_head (c := '[') rfl (by decide)
    · decide)
  exact ⟨r, out, hr, hmain.trans (congrArg some ho), hres, hlast⟩

/-! ## main: too few arguments, wrong arity, unknown operation -/

/-- With an operation and one argument or more after it, `main` passes the
check on `argc` and dispatches on the operation name. -/
theorem main_dispatch (fuel elapsed : Nat) (prog op s0 : String) (rest : List String) :
    main fuel elapsed (prog :: op :: s0 :: rest) =
      if op = "add" then some (mainAdd elapsed (prog :: op :: s0 :: rest) (banner op))
      else if op = "multiply" then
        some (mainMultiply elapsed (prog :: op :: s0 :: rest) (banner op))
      else if op = "fibonacci" then
        mainFibonacci fuel elapsed (prog :: op :: s0 :: rest) (banner op)
      else if op = "squares" then
        some (mainSquares elapsed (prog :: op :: s0 :: rest) (banner op))
      else
        some (.exit 1 (banner op ++ "Error: Unknown operation '" ++ op ++ "'" ++ endl ++
          printUsage)) := by
  have hge : ¬ (((prog :: op :: s0 :: rest).length : Int) < 3) := by
    simp only [List.length_cons]
    push_cast
    omega
  unfold main
  simp only [hge, if_false]
  rfl

/-- C11: with fewer than 2 arguments after the program name (`argc < 3`),
`main` prints the usage text and nothing else, so no line beginning with
`RESULT:`, and returns the non-zero status 1. -/
theorem main_too_few_arguments (fuel elapsed : Nat) (argv : List String)
    (h : argv.length < 3) :
    ∃ code out, main fuel elapsed argv = some (.exit code out) ∧ code ≠ 0 ∧
      out = printUsage ∧ resultLines out = [] := by
  have hlt : (argv.length : Int) < 3 := by exact_mod_cast h
  refine ⟨1, printUsage, ?_, by decide, rfl, silent_printUsage.1⟩
  unfold main
  simp only [hlt, if_true]

theorem main_too_few_arguments_witness :
    (([] : List String).length < 3 ∧
      ∃ code out, main 0 0 [] = some (.exit code out) ∧ code ≠ 0 ∧
        out = printUsage ∧ resultLines out = []) ∧
    (["./calculator", "squares"].length < 3 ∧
      ∃ code out, main 0 0 ["./calculator", "squares"] = some (.exit code out) ∧ code ≠ 0 ∧
        out = printUsage ∧ resultLines out = []) :=
  ⟨⟨by decide, main_too_few_arguments 0 0 [] (by decide)⟩,
    ⟨by decide, main_too_few_arguments 0 0 ["./calculator", "squares"] (by decide)⟩⟩

set_option maxRecDepth 100000 in
/-- C12, as stated, fails on `add` with no numeric argument: `main` returns 1
with the usage text alone, and no line of it is the argument-count error. -/
theorem main_add_without_operands :
    main 0 0 ["./calculator", "add"] = some (.exit 1 printUsage) ∧
    "Error: Add operation requires exactly 2 numbers".data ∉ lines printUsage.data := by
  decide

/-- C12, amended: with one numeric argument or more, `add` and `multiply`
with a number of them other than 2, and `fibonacci` with a number of them
other than 1, return 1 after the banner and the argument-count error alone;
the outcome does not depend on the text of the arguments (none is parsed) and
has no line beginning with `RESULT:`. -/
theorem main_wrong_arity (fuel elapsed : Nat) (prog : String) (ss : List String)
    (hne : ss ≠ []) :
    (ss.length ≠ 2 →
      main fuel elapsed (prog :: "add" :: ss) = some (.exit 1
        (banner "add" ++ "Error: Add operation requires exactly 2 numbers" ++ endl))) ∧
    (ss.length ≠ 2 →
      main fuel elapsed (prog :: "multiply" :: ss) = some (.exit 1
        (banner "multiply" ++ "Error: Multiply operation requires exactly 2 numbers" ++
          endl))) ∧
    (ss.length ≠ 1 →
      main fuel elapsed (prog :: "fibonacci" :: ss) = some (.exit 1
        (banner "fibonacci" ++ "Error: Fibonacci operation requires exactly 1 number" ++
          endl))) ∧
    resultLines (banner "add" ++ "Error: Add operation requires exactly 2 numbers" ++ endl)
      = [] ∧
    resultLines (banner "multiply" ++ "Error: Multiply operation requires exactly 2 numbers" ++
      endl) = [] ∧
    resultLines (banner "fibonacci" ++ "Error: Fibonacci operation requires exactly 1 number" ++
      endl) = [] := by
  obtain ⟨s0, rest, rfl⟩ : ∃ s0 rest, ss = s0 :: rest := by
    cases ss with
    | nil => exact (hne rfl).elim
    | cons s0 rest => exact ⟨s0, rest, rfl⟩
  refine ⟨?_, ?_, ?_, silent_banner_errors.1.1, silent_banner_errors.2.2.2.1.1,
    silent_banner_errors.2.2.2.2.2.2.1.1⟩
  · intro h
    have hc : ((prog :: "add" :: s0 :: rest).length : Int) ≠ 4 := by
      simp only [List.length_cons] at h ⊢
      push_cast
      omega
    rw [main_dispatch]
    simp only [if_true, mainAdd, hc, ne_eq, not_false_eq_true]
  · intro h
    have hc : ((prog :: "multiply" :: s0 :: rest).length : Int) ≠ 4 := by
      simp only [List.length_cons] at h ⊢
      push_cast
      omega
    rw [main_dispatch, if_neg (by decide), if_pos rfl]
    simp only [mainMultiply, hc, ne_eq, not_false_eq_true, if_true]
  · intro h
    have hc : ((prog :: "fibonacci" :: s0 :: rest).length : Int) ≠ 3 := by
      simp only [List.length_cons] at h ⊢
      push_cast
      omega
    rw [main_dispatch, if_neg (by decide), if_neg (by decide), if_pos rfl]
    simp only [mainFibonacci, hc, ne_eq, not_false_eq_true, if_true]

theorem main_wrong_arity_witness :
    main 0 0 ["./calculator", "add", "2", "3", "4"] = some (.exit 1
      (banner "add" ++ "Error: Add operation requires exactly 2 numbers" ++ endl)) ∧
    main 0 0 ["./calculator", "fibonacci", "1", "x"] = some (.exit 1
      (banner "fibonacci" ++ "Error: Fibonacci operation requires exactly 1 number" ++ endl)) :=
  ⟨(main_wrong_arity 0 0 "./calculator" ["2", "3", "4"] (by decide)).1 (by decide),
    (main_wrong_arity 0 0 "./calculator" ["1", "x"] (by decide)).2.2.1 (by decide)⟩

/-- C13: `fibonacci` with one argument that `stoi` reads as a negative
integer: `main` returns 1 after the banner and the domain-error message
alone, whatever the fuel (the call of `fibonacci` is not reached), and no
line begins with `RESULT:`. -/
theorem main_fibonacci_negative (fuel elapsed : Nat) (prog s : String) (n : Int)
    (hs : stoi s = .ok n) (hn : n < 0) :
    main fuel elapsed [prog, "fibonacci", s] = some (.exit 1
      (banner "fibonacci" ++ "Error: Fibonacci position must be non-negative" ++ endl)) ∧
    resultLines (banner "fibonacci" ++ "Error: Fibonacci position must be non-negative" ++
      endl) = [] := by
  refine ⟨?_, silent_banner_errors.2.2.2.2.2.2.2.2.2.1⟩
  have h2 : stoiArg [prog, "fibonacci", s] 2 = .val n := stoiArg_val rfl hs
  rw [main_dispatch]
  simp [mainFibonacci, h2, hn]

theorem main_fibonacci_negative_witness :
    stoi "-1" = .ok (-1) ∧ (-1 : Int) < 0 ∧
    main 0 0 ["./calculator", "fibonacci", "-1"] = some (.exit 1
      (banner "fibonacci" ++ "Error: Fibonacci position must be non-negative" ++ endl)) ∧
    resultLines (banner "fibonacci" ++ "Error: Fibonacci position must be non-negative" ++
      endl) = [] :=
  ⟨rfl, by decide, main_fibonacci_negative 0 0 "./calculator" "-1" (-1) rfl (by decide)⟩

set_option maxRecDepth 100000 in
/-- C16, as stated, fails on an unknown operation name with nothing after it:
`main` returns 1 with the usage text alone, and no line of it is the
unknown-operation message. -/
theorem main_unknown_without_operands :
    main 0 0 ["./calculator", "foo"] = some (.exit 1 printUsage) ∧
    "Error: Unknown operation 'foo'".data ∉ lines printUsage.data := by
  decide

/-- C16, amended: with one argument or more after an operation name that is
none of `add`, `multiply`, `fibonacci`, `squares`, `main` returns 1 and its
output is the banner, the unknown-operation message with the name, and the
usage text. -/
theorem main_unknown_operation (fuel elapsed : Nat) (prog op : String) (ss : List String)
    (hne : ss ≠ []) (h1 : op ≠ "add") (h2 : op ≠ "multiply") (h3 : op ≠ "fibonacci")
    (h4 : op ≠ "squares") :
    main fuel elapsed (prog :: op :: ss) = some (.exit 1
      (banner op ++ "Error: Unknown operation '" ++ op ++ "'" ++ endl ++ printUsage)) := by
  obtain ⟨s0, rest, rfl⟩ : ∃ s0 rest, ss = s0 :: rest := by
    cases ss with
    | nil => exact (hne rfl).elim
    | cons s0 rest => exact ⟨s0, rest, rfl⟩
  rw [main_dispatch, if_neg h1, if_neg h2, if_neg h3, if_neg h4]

theorem main_unknown_operation_witness :
    main 0 0 ["./calculator", "divide", "6", "3"] = some (.exit 1
      (banner "divide" ++ "Error: Unknown operation '" ++ "divide" ++ "'" ++ endl ++
        printUsage)) :=
  main_unknown_operation 0 0 "./calculator" "divide" ["6", "3"] (by decide) (by decide)
    (by decide) (by decide) (by decide)

/-! ## stoi on decimal integers -/

theorem isspace_of_isDigit {c : Char} (hc : c.isDigit = true) : isspace c = false := by
  have h1 : c ≠ ' ' := by rintro rfl; exact absurd hc (by decide)
  have h2 : c ≠ '\t' := by rintro rfl; exact absurd hc (by decide)
  have h3 : c ≠ '\n' := by rintro rfl; exact absurd hc (by decide)
  have h4 : c ≠ '\x0b' := by rintro rfl; exact absurd hc (by decide)
  have h5 : c ≠ '\x0c' := by rintro rfl; exact absurd hc (by decide)
  have h6 : c ≠ '\r' := by rintro rfl; exact absurd hc (by decide)
  simp [isspace, h1, h2, h3, h4, h5, h6]

/-- What `stoi` does on a text that begins with `-`. -/
theorem stoi_minus (r : List Char) :
    stoi ⟨'-' :: r⟩ =
      if r.takeWhile Char.isDigit = [] then .error .invalid_argument
      else if INT_MIN ≤ -(digitsValue (r.takeWhile Char.isDigit) : Int) ∧
          -(digitsValue (r.takeWhile Char.isDigit) : Int) ≤ INT_MAX then
        .ok (-(digitsValue (r.takeWhile Char.isDigit) : Int))
      else .error .out_of_range := by
  have h : List.dropWhile isspace ('-' :: r) = '-' :: r :=
    List.dropWhile_cons_of_neg (by decide)
  unfold stoi
  simp only [h, if_true, Bool.true_eq_false]

/-- What `stoi` does on a text that begins with `+`. -/
theorem stoi_plus (r : List Char) :
    stoi ⟨'+' :: r⟩ =
      if r.takeWhile Char.isDigit = [] then .error .invalid_argument
      else if INT_MIN ≤ (digitsValue (r.takeWhile Char.isDigit) : Int) ∧
          (digitsValue (r.takeWhile Char.isDigit) : Int) ≤ INT_MAX then
        .ok ((digitsValue (r.takeWhile Char.isDigit) : Int))
      else .error .out_of_range := by
  have h : List.dropWhile isspace ('+' :: r) = '+' :: r :=
    List.dropWhile_cons_of_neg (by decide)
  unfold stoi
  simp only [h, if_true, Bool.true_eq_false]
  rfl

/-- The sign match of `stoi` and of `unsignedPart` on a text that begins
with a digit. -/
theorem sign_match_of_isDigit (c : Char) (r : List Char) (hc : c.isDigit = true) :
    (match c :: r with
      | '-' :: r => (true, r)
      | '+' :: r => (false, r)
      | _ => (false, c :: r)) = (false, c :: r) := by
  have hm : c ≠ '-' := by rintro rfl; exact absurd hc (by decide)
  have hp : c ≠ '+' := by rintro rfl; exact absurd hc (by decide)
  split
  · rename_i heq
    simp only [List.cons.injEq] at heq
    exact (hm heq.1).elim
  · rename_i heq
    simp only [List.cons.injEq] at heq
    exact (hp heq.1).elim
  · rfl

/-- What `stoi` does on a text that begins with a digit. -/
theorem stoi_digit (c : Char) (r : List Char) (hc : c.isDigit = true) :
    stoi ⟨c :: r⟩ =
      if INT_MIN ≤ (digitsValue (c :: r.takeWhile Char.isDigit) : Int) ∧
          (digitsValue (c :: r.takeWhile Char.isDigit) : Int) ≤ INT_MAX then
        .ok ((digitsValue (c :: r.takeWhile Char.isDigit) : Int))
      else .error .out_of_range := by
  have h : List.dropWhile isspace (c :: r) = c :: r :=
    List.dropWhile_cons_of_neg (by simp [isspace_of_isDigit hc])
  have hbody := sign_match_of_isDigit c r hc
  unfold stoi
  simp only [h, hbody, List.takeWhile_cons, hc, if_true]
  simp

theorem unsignedPart_of_isDigit (c : Char) (r : List Char) (hc : c.isDigit = true) :
    unsignedPart ⟨c :: r⟩ = c :: r := by
  have hm : c ≠ '-' := by rintro rfl; exact absurd hc (by decide)
  have hp : c ≠ '+' := by rintro rfl; exact absurd hc (by decide)
  unfold unsignedPart
  split
  · rename_i heq
    simp only [List.cons.injEq] at heq
    exact (hm heq.1).elim
  · rename_i heq
    simp only [List.cons.injEq] at heq
    exact (hp heq.1).elim
  · rfl

theorem decimalValue_of_isDigit (c : Char) (r : List Char) (hc : c.isDigit = true) :
    decimalValue ⟨c :: r⟩ = (digitsValue (c :: r) : Int) := by
  have hm : c ≠ '-' := by rintro rfl; exact absurd hc (by decide)
  unfold decimalValue
  split
  · rename_i heq
    simp only [List.cons.injEq] at heq
    exact (hm heq.1).elim
  · rw [unsignedPart_of_isDigit c r hc]

/-- On an optionally signed decimal integer, `stoi` returns its value when
the value is an `int` and throws `out_of_range` otherwise: the value is
never reduced or cut. -/
theorem stoi_of_isDecimalInteger (s : String) (h : isDecimalInteger s = true) :
    stoi s = if isInt32 (decimalValue s) then .ok (decimalValue s)
      else .error .out_of_range := by
  obtain ⟨cs⟩ := s
  unfold isDecimalInteger at h
  simp only [Bool.and_eq_true, Bool.not_eq_true', List.isEmpty_eq_false, List.all_eq_true] at h
  obtain ⟨hne, hall⟩ := h
  cases cs with
  | nil => exact (hne rfl).elim
  | cons c r =>
    by_cases hm : c = '-'
    · subst hm
      have hu : unsignedPart ⟨'-' :: r⟩ = r := rfl
      rw [hu] at hne hall
      have ht : r.takeWhile Char.isDigit = r := List.takeWhile_eq_self_iff.2 hall
      rw [stoi_minus, ht, if_neg hne]
      rfl
    · by_cases hp : c = '+'
      · subst hp
        have hu : unsignedPart ⟨'+' :: r⟩ = r := rfl
        rw [hu] at hne hall
        have ht : r.takeWhile Char.isDigit = r := List.takeWhile_eq_self_iff.2 hall
        rw [stoi_plus, ht, if_neg hne]
        rfl
      · have hu : unsignedPart ⟨c :: r⟩ = c :: r := by
          unfold unsignedPart
          split
          · rename_i heq
            simp only [List.cons.injEq] at heq
            exact (hm heq.1).elim
          · rename_i heq
            simp only [List.cons.injEq] at heq
            exact (hp heq.1).elim
          · rfl
        rw [hu] at hall
        have hc : c.isDigit = true := hall c (List.mem_cons_self _ _)
        have hr : r.takeWhile Char.isDigit = r :=
          List.takeWhile_eq_self_iff.2 (fun x hx => hall x (List.mem_cons_of_mem _ hx))
        rw [stoi_digit c r hc, hr, decimalValue_of_isDigit c r hc]
        rfl

/-- When `stoi` throws `invalid_argument`, the text is not an optionally
signed decimal integer. -/
theorem not_isDecimalInteger_of_invalid {s : String}
    (h : stoi s = .error .invalid_argument) : isDecimalInteger s = false := by
  by_contra hd
  have hd1 : isDecimalInteger s = true := by simpa using hd
  rw [stoi_of_isDecimalInteger s hd1] at h
  split at h <;> cases h

/-- An optionally signed decimal integer whose value is not an `int` makes
`stoi` throw `out_of_range`. -/
theorem stoi_out_of_range {s : String} (hd : isDecimalInteger s = true)
    (hv : ¬ isInt32 (decimalValue s)) : stoi s = .error .out_of_range := by
  rw [stoi_of_isDecimalInteger s hd, if_neg hv]

/-! ## main: the first argument that stoi does not read -/

theorem stoiArg_threw {argv : List String} {i : Nat} {s : String} {e : StoiError}
    (hs : argv[i]? = some s) (he : stoi s = .error e) : stoiArg argv i = .threw e := by
  simp [stoiArg, hs, he]

/-- The loop filling the operand buffer, when `stoi` throws `e` on operand
`k` and reads every operand before it: started at an index `j ≤ k` inside the
buffer, it stops with `e`, having appended text without line feed. -/
theorem fillNumbers_threw (prog op : String) (ss : List String) (k : Nat) (s : String)
    (e : StoiError) (hs : ss[k]? = some s) (hbad : stoi s = .error e)
    (hok : ∀ j t, j < k → ss[j]? = some t → ∃ x, stoi t = .ok x) :
    ∀ (m j : Nat) (numbers : List Int) (out : String),
      j ≤ k → k < j + m → k ≤ numbers.length →
      ∃ t, fillNumbers (prog :: op :: ss) (List.range' j m) numbers out
          = .threw e (out ++ t) ∧ '\n' ∉ t.data := by
  have hk : k < ss.length := by
    by_contra hge
    rw [List.getElem?_eq_none (by omega)] at hs
    cases hs
  intro m
  induction m with
  | zero => intro j numbers out h1 h2; omega
  | succ m ih =>
    intro j numbers out h1 h2 h3
    by_cases hjk : j = k
    · subst hjk
      have harg : stoiArg (prog :: op :: ss) (j + 2) = .threw e :=
        stoiArg_threw (by simpa using hs) hbad
      refine ⟨"", ?_, by simp⟩
      rw [List.range'_succ, fillNumbers, harg]
      simp
    · have hlt : j < k := by omega
      have hjs : j < ss.length := by omega
      obtain ⟨x, hx⟩ := hok j ss[j] hlt (List.getElem?_eq_getElem hjs)
      have harg : stoiArg (prog :: op :: ss) (j + 2) = .val x :=
        stoiArg_val (by simp [List.getElem?_eq_getElem hjs]) hx
      obtain ⟨t, ht, hnl⟩ := ih (j + 1) (numbers.set j x) (out ++ showInt x ++ " ")
        (by omega) (by omega) (by simpa using h3)
      refine ⟨showInt x ++ " " ++ t, ?_, ?_⟩
      · rw [List.range'_succ, fillNumbers, harg]
        simp only
        rw [if_pos (by omega), ht]
        simp [String.append_assoc]
      · simp only [String.data_append, List.mem_append, not_or]
        exact ⟨⟨showInt_no_newline _, by decide⟩, hnl⟩

/-- A recognised operation with a number of operands it takes: when `stoi`
throws `e` on operand `k` and reads every operand before it, `main` ends in
the `catch` clause of `e`, after a text `pre` that leaves either error
output silent. -/
theorem main_first_stoi_error (fuel elapsed : Nat) (prog op : String) (ss : List String)
    (k : Nat) (s : String) (e : StoiError) (hop : validArity op ss.length)
    (hs : ss[k]? = some s) (hbad : stoi s = .error e)
    (hok : ∀ j t, j < k → ss[j]? = some t → ∃ x, stoi t = .ok x) :
    ∃ pre, main fuel elapsed (prog :: op :: ss) = some (handler e pre) ∧
      silent (pre ++ "Error: Invalid number format" ++ endl) ∧
      silent (pre ++ "Error: Number out of range" ++ endl) := by
  rcases hop with ⟨rfl, hl⟩ | ⟨rfl, hl⟩ | ⟨rfl, hl⟩ | ⟨rfl, hl⟩
  · obtain ⟨s0, s1, rfl⟩ : ∃ s0 s1, ss = [s0, s1] := by
      match ss, hl with
      | [s0, s1], _ => exact ⟨s0, s1, rfl⟩
    refine ⟨banner "add", ?_, silent_banner_errors.2.1, silent_banner_errors.2.2.1⟩
    rw [main_dispatch, if_pos rfl]
    match k, hs, hok with
    | 0, hs, _ =>
      have h2 : stoiArg [prog, "add", s0, s1] 2 = .threw e := stoiArg_threw (by simpa using hs) hbad
      simp [mainAdd, h2]
    | 1, hs, hok =>
      obtain ⟨a, ha⟩ := hok 0 s0 (by omega) rfl
      have h2 : stoiArg [prog, "add", s0, s1] 2 = .val a := stoiArg_val rfl ha
      have h3 : stoiArg [prog, "add", s0, s1] 3 = .threw e := stoiArg_threw (by simpa using hs) hbad
      simp [mainAdd, h2, h3]
    | k + 2, hs, _ => simp at hs
  · obtain ⟨s0, s1, rfl⟩ : ∃ s0 s1, ss = [s0, s1] := by
      match ss, hl with
      | [s0, s1], _ => exact ⟨s0, s1, rfl⟩
    refine ⟨banner "multiply", ?_, silent_banner_errors.2.2.2.2.1,
      silent_banner_errors.2.2.2.2.2.1⟩
    rw [main_dispatch, if_neg (by decide), if_pos rfl]
    match k, hs, hok with
    | 0, hs, _ =>
      have h2 : stoiArg [prog, "multiply", s0, s1] 2 = .threw e :=
        stoiArg_threw (by simpa using hs) hbad
      simp [mainMultiply, h2]
    | 1, hs, hok =>
      obtain ⟨a, ha⟩ := hok 0 s0 (by omega) rfl
      have h2 : stoiArg [prog, "multiply", s0, s1] 2 = .val a := stoiArg_val rfl ha
      have h3 : stoiArg [prog, "multiply", s0, s1] 3 = .threw e :=
        stoiArg_threw (by simpa using hs) hbad
      simp [mainMultiply, h2, h3]
    | k + 2, hs, _ => simp at hs
  · obtain ⟨s0, rfl⟩ : ∃ s0, ss = [s0] := by
      match ss, hl with
      | [s0], _ => exact ⟨s0, rfl⟩
    refine ⟨banner "fibonacci", ?_, silent_banner_errors.2.2.2.2.2.2.2.1,
      silent_banner_errors.2.2.2.2.2.2.2.2.1⟩
    rw [main_dispatch, if_neg (by decide), if_neg (by decide), if_pos rfl]
    match k, hs with
    | 0, hs =>
      have h2 : stoiArg [prog, "fibonacci", s0] 2 = .threw e :=
        stoiArg_threw (by simpa using hs) hbad
      simp [mainFibonacci, h2]
    | k + 1, hs => simp at hs
  · have hk : k < ss.length := by
      by_contra hge
      rw [List.getElem?_eq_none (by omega)] at hs
      cases hs
    obtain ⟨s0, rest, rfl⟩ : ∃ s0 rest, ss = s0 :: rest := by
      cases ss with
      | nil => simp at hl
      | cons s0 rest => exact ⟨s0, rest, rfl⟩
    obtain ⟨t, ht, hnl⟩ := fillNumbers_threw prog "squares" (s0 :: rest) k s e hs hbad hok
      (s0 :: rest).length 0 (List.replicate (s0 :: rest).length 0)
      (banner "squares" ++ "[C++] Numbers: ") (by omega) (by omega)
      (by rw [List.length_replicate]; omega)
    refine ⟨banner "squares" ++ "[C++] Numbers: " ++ t, ?_,
      silent_squares_error t _ hnl (by decide), silent_squares_error t _ hnl (by decide)⟩
    have hge : ¬ (((prog :: "squares" :: s0 :: rest).length : Int) < 3) := by
      simp only [List.length_cons]
      push_cast
      omega
    have hcount : (((prog :: "squares" :: s0 :: rest).length : Int) - 2).toNat
        = (s0 :: rest).length := by
      simp only [List.length_cons]
      push_cast
      omega
    rw [main_dispatch, if_neg (by decide), if_neg (by decide), if_neg (by decide), if_pos rfl]
    unfold mainSquares
    simp only [hge, if_false, hcount]
    rw [← List.range_eq_range'] at ht
    rw [ht]

set_option maxRecDepth 100000 in
/-- C14, as stated, fails twice. The argument `2x` is not an optionally
signed decimal integer, and `add 2x 3` succeeds with `RESULT: 5`. The
argument `three` is not one either, and `add 2147483648 three` ends with the
range-error message, not with the parse-error message. -/
theorem main_parse_error_fails :
    isDecimalInteger "2x" = false ∧
    (∃ out, main 0 0 ["./calculator", "add", "2x", "3"] = some (.exit 0 out) ∧
      resultLines out = ["RESULT: 5".data]) ∧
    isDecimalInteger "three" = false ∧
    main 0 0 ["./calculator", "add", "2147483648", "three"] = some (.exit 1
      (banner "add" ++ "Error: Number out of range" ++ endl)) := by
  refine ⟨by decide, ⟨_, rfl, by decide⟩, by decide, by decide⟩

/-- C14, amended: a recognised operation with a number of operands it
takes; when `stoi` throws `invalid_argument` on some operand (no digit after
its leading white space and sign, so it is not a decimal integer) and reads
every operand before it, `main` returns 1, its output ends with the
parse-error message, and no line begins with `RESULT:`. -/
theorem main_parse_error (fuel elapsed : Nat) (prog op : String) (ss : List String)
    (k : Nat) (s : String) (hop : validArity op ss.length)
    (hs : ss[k]? = some s) (hbad : stoi s = .error .invalid_argument)
    (hok : ∀ j t, j < k → ss[j]? = some t → ∃ x, stoi t = .ok x) :
    isDecimalInteger s = false ∧
    ∃ pre, main fuel elapsed (prog :: op :: ss) = some (.exit 1
        (pre ++ "Error: Invalid number format" ++ endl)) ∧
      resultLines (pre ++ "Error: Invalid number format" ++ endl) = [] := by
  obtain ⟨pre, hm, h1, _⟩ := main_first_stoi_error fuel elapsed prog op ss k s _ hop hs hbad hok
  exact ⟨not_isDecimalInteger_of_invalid hbad, pre, hm, h1.1⟩

theorem main_parse_error_witness :
    validArity "add" ["2", "three"].length ∧ stoi "three" = .error .invalid_argument ∧
    isDecimalInteger "three" = false ∧
    ∃ pre, main 0 0 ("./calculator" :: "add" :: ["2", "three"]) = some (.exit 1
        (pre ++ "Error: Invalid number format" ++ endl)) ∧
      resultLines (pre ++ "Error: Invalid number format" ++ endl) = [] :=
  ⟨by decide, rfl,
    main_parse_error 0 0 "./calculator" "add" ["2", "three"] 1 "three" (by decide) rfl rfl
      (by
        intro j t hj ht
        have h0 : j = 0 := by omega
        subst h0
        cases ht
        exact ⟨2, rfl⟩)⟩

set_option maxRecDepth 100000 in
/-- C15, as stated, fails on `add three 2147483648`: the second argument is
a decimal integer outside the `int` range, and `main` ends with the
parse-error message of the first argument; no line of the output is the
range-error message. -/
theorem main_range_error_fails :
    isDecimalInteger "2147483648" = true ∧ decimalValue "2147483648" = 2147483648 ∧
    ¬ isInt32 2147483648 ∧
    main 0 0 ["./calculator", "add", "three", "2147483648"] = some (.exit 1
      (banner "add" ++ "Error: Invalid number format" ++ endl)) ∧
    "Error: Number out of range".data ∉
      lines (banner "add" ++ "Error: Invalid number format" ++ endl).data := by
  decide

/-- C15, amended: a recognised operation with a number of operands it
takes; when some operand is a decimal integer whose value is outside the
`int` range and `stoi` reads every operand before it, `stoi` throws
`out_of_range` on it (no reduced value is produced), `main` returns 1, its
output ends with the range-error message, and no line begins with
`RESULT:`. -/
theorem main_range_error (fuel elapsed : Nat) (prog op : String) (ss : List String)
    (k : Nat) (s : String) (hop : validArity op ss.length)
    (hs : ss[k]? = some s) (hd : isDecimalInteger s = true)
    (hv : ¬ isInt32 (decimalValue s))
    (hok : ∀ j t, j < k → ss[j]? = some t → ∃ x, stoi t = .ok x) :
    stoi s = .error .out_of_range ∧
    ∃ pre, main fuel elapsed (prog :: op :: ss) = some (.exit 1
        (pre ++ "Error: Number out of range" ++ endl)) ∧
      resultLines (pre ++ "Error: Number out of range" ++ endl) = [] := by
  have hbad := stoi_out_of_range hd hv
  obtain ⟨pre, hm, _, h2⟩ := main_first_stoi_error fuel elapsed prog op ss k s _ hop hs hbad hok
  exact ⟨hbad, pre, hm, h2.1⟩

theorem main_range_error_witness :
    validArity "add" ["2147483648", "1"].length ∧ isDecimalInteger "2147483648" = true ∧
    ¬ isInt32 (decimalValue "2147483648") ∧
    stoi "2147483648" = .error .out_of_range ∧
    ∃ pre, main 0 0 ("./calculator" :: "add" :: ["2147483648", "1"]) = some (.exit 1
        (pre ++ "Error: Number out of range" ++ endl)) ∧
      resultLines (pre ++ "Error: Number out of range" ++ endl) = [] :=
  ⟨by decide, by decide, by decide,
    main_range_error 0 0 "./calculator" "add" ["2147483648", "1"] 0 "2147483648" (by decide)
      rfl (by decide) (by decide) (by intro j t hj; omega)⟩

/-! ## fibonacci: the additions up to index 92 -/

theorem fibonacciSums_succ (n : Int) (fuel : Nat) (i prev curr : Int) :
    fibonacciSums n (fuel + 1) i prev curr =
      if i ≤ n then
        (prev + curr) :: fibonacciSums n fuel (wrap32 (i + 1)) curr (wrap64 (prev + curr))
      else [] := rfl

theorem fibRef_add_two (k : Nat) : fibRef k + fibRef (k + 1) = fibRef (k + 2) := by
  rw [fibRef, add_comm]

/-- Up to `n = 92`, every addition of the loop, entered with exact terms of
the reference sequence, has its exact value in the `long long` range. -/
theorem fibonacciSums_exact (n : Int) (hn : n ≤ 92) :
    ∀ (fuel k : Nat), ∀ s ∈ fibonacciSums n fuel (k + 2) (fibRef k) (fibRef (k + 1)),
      isInt64 s := by
  intro fuel
  induction fuel with
  | zero => intro k s hs; simp [fibonacciSums] at hs
  | succ fuel ih =>
    intro k s hs
    rw [fibonacciSums_succ] at hs
    by_cases hle : (k : Int) + 2 ≤ n
    · rw [if_pos hle, fibRef_add_two] at hs
      have hk : k + 2 ≤ 92 := by omega
      have hi : wrap32 ((k : Int) + 2 + 1) = ((k + 1 : Nat) : Int) + 2 := by
        unfold wrap32
        push_cast
        omega
      rw [hi, wrap64_of_isInt64 (isInt64_fibRef hk)] at hs
      rcases List.mem_cons.1 hs with rfl | hs
      · exact isInt64_fibRef hk
      · exact ih (k + 1) s hs
    · rw [if_neg hle] at hs
      simp at hs

/-- From `n = 93` on, and with fuel for 92 tests, the loop performs the
addition `F(91) + F(92)`, whose exact value is `F(93)`. -/
theorem fibonacciSums_overflow (n : Int) (hn : 93 ≤ n) :
    ∀ (d k fuel : Nat), k + d = 91 → d + 1 ≤ fuel →
      fibRef 93 ∈ fibonacciSums n fuel (k + 2) (fibRef k) (fibRef (k + 1)) := by
  intro d
  induction d with
  | zero =>
    intro k fuel hk hf
    obtain ⟨f, rfl⟩ : ∃ f, fuel = f + 1 := ⟨fuel - 1, by omega⟩
    have hk91 : k = 91 := by omega
    subst hk91
    have hle : ((91 : Nat) : Int) + 2 ≤ n := by push_cast; omega
    rw [fibonacciSums_succ, if_pos hle, fibRef_add_two]
    exact List.mem_cons_self _ _
  | succ d ih =>
    intro k fuel hk hf
    obtain ⟨f, rfl⟩ : ∃ f, fuel = f + 1 := ⟨fuel - 1, by omega⟩
    have hle : (k : Int) + 2 ≤ n := by omega
    have hk92 : k + 2 ≤ 92 := by omega
    have hi : wrap32 ((k : Int) + 2 + 1) = ((k + 1 : Nat) : Int) + 2 := by
      unfold wrap32
      push_cast
      omega
    rw [fibonacciSums_succ, if_pos hle, fibRef_add_two, hi,
      wrap64_of_isInt64 (isInt64_fibRef hk92)]
    exact List.mem_cons_of_mem _ (ih (k + 1) f (by omega) (by omega))

theorem not_isInt64_fibRef_93 : ¬ isInt64 (fibRef 93) := by
  rw [fibRef_93]
  decide

/-- C17: for `0 ≤ n ≤ 92` every addition performed by `fibonacci(n)` has its
exact value in the signed 64-bit range and the call returns the exact `n`-th
Fibonacci number; `fibonacci(92)` is `7540113804746346429`; the 93rd
Fibonacci number exceeds `2^63 - 1`, and from index 93 on some addition of
the call leaves the 64-bit range, so 92 is the largest such index. -/
theorem fibonacci_exact_up_to_92 (fuel : Nat) (n : Int) (h0 : 0 ≤ n) (h92 : n ≤ 92)
    (hf : n ≤ fuel) :
    (∀ s ∈ fibonacciAdditions fuel n, isInt64 s) ∧
    fibonacci fuel n = some (fibRef n.toNat) ∧
    fibonacci 92 92 = some 7540113804746346429 ∧
    fibRef 92 = 7540113804746346429 ∧
    LLONG_MAX < fibRef 93 ∧
    (∀ (m : Int) (fuel1 : Nat), 92 < m → 92 ≤ fuel1 →
      ∃ s ∈ fibonacciAdditions fuel1 m, ¬ isInt64 s) := by
  have hmax : n < INT_MAX := by unfold INT_MAX; omega
  refine ⟨?_, ?_, ?_, fibRef_92, ?_, ?_⟩
  · intro s hs
    unfold fibonacciAdditions at hs
    split at hs
    · simp at hs
    · split at hs
      · simp at hs
      · have h := fibonacciSums_exact n h92 fuel 0 s
        simp only [Nat.cast_zero, zero_add] at h
        exact h hs
  · rw [fibonacci_eq_wrap fuel n h0 hmax hf, wrap64_of_isInt64 (isInt64_fibRef (by omega))]
  · have h := fibonacci_eq_wrap 92 92 (by decide) (by decide) (by decide)
    rw [h, show (92 : Int).toNat = 92 from rfl, wrap64_of_isInt64 (isInt64_fibRef le_rfl),
      fibRef_92]
  · rw [fibRef_93]
    decide
  · intro m fuel1 hm hf1
    refine ⟨fibRef 93, ?_, not_isInt64_fibRef_93⟩
    have h1 : ¬ (m ≤ 0) := by omega
    have h2 : ¬ (m = 1) := by omega
    unfold fibonacciAdditions
    rw [if_neg h1, if_neg h2]
    have h := fibonacciSums_overflow m (by omega) 91 0 fuel1 (by omega) (by omega)
    simp only [Nat.cast_zero, zero_add] at h
    exact h

theorem fibonacci_exact_up_to_92_witness :
    (∀ s ∈ fibonacciAdditions 92 92, isInt64 s) ∧
    fibonacci 92 92 = some (fibRef (92 : Int).toNat) ∧
    fibonacci 92 92 = some 7540113804746346429 ∧
    fibRef 92 = 7540113804746346429 ∧
    LLONG_MAX < fibRef 93 ∧
    (∀ (m : Int) (fuel1 : Nat), 92 < m → 92 ≤ fuel1 →
      ∃ s ∈ fibonacciAdditions fuel1 m, ¬ isInt64 s) :=
  fibonacci_exact_up_to_92 92 92 (by decide) (by decide) (by decide)

/-- C19: on a negative 32-bit `n` the function `fibonacci` returns, with any
fuel, and its value is 0, the value of `fibonacci(0)`. -/
theorem fibonacci_negative (fuel : Nat) (n : Int) (h32 : isInt32 n) (hn : n < 0) :
    fibonacci fuel n = some 0 ∧ fibonacci fuel n = fibonacci fuel 0 := by
  have hle : n ≤ 0 := by omega
  have e : fibonacci fuel n = some 0 := by simp [fibonacci, hle]
  have e0 : fibonacci fuel 0 = some 0 := by simp [fibonacci]
  exact ⟨e, e.trans e0.symm⟩

theorem fibonacci_negative_witness :
    isInt32 (-2147483648) ∧ (-2147483648 : Int) < 0 ∧
    fibonacci 0 (-2147483648) = some 0 ∧
    fibonacci 0 (-2147483648) = fibonacci 0 0 :=
  ⟨by decide, by decide, fibonacci_negative 0 (-2147483648) (by decide) (by decide)⟩

/-! ## sumOfSquares: exact terms -/

/-- The square of an `int` is at most `2^62`. -/
theorem sq_le_of_isInt32 {x : Int} (hx : isInt32 x) : x * x ≤ 4611686018427387904 := by
  unfold isInt32 INT_MIN INT_MAX at hx
  obtain ⟨h1, h2⟩ := hx
  nlinarith [mul_nonneg (sub_nonneg.2 h1) (sub_nonneg.2 h2)]

/-- C18: for every 32-bit `x`, `INT_MIN` included, the term
`(long long)x * x` is the exact square, at most `2^62`; on an array of
32-bit values whose exact sum of squares is at most `2^63 - 1` the function
returns that sum, which is not negative; and on `[INT_MIN, INT_MIN]` the
exact sum is `2^63`, which does not fit. -/
theorem sumOfSquares_exact (arr : List Int) (hall : ∀ x ∈ arr, isInt32 x)
    (hfit : sumSq arr ≤ LLONG_MAX) :
    (∀ x : Int, isInt32 x →
      wrap64 (wrap64 x * wrap64 x) = x * x ∧ x * x ≤ 4611686018427387904 ∧
      sumOfSquares [x] 1 = some (x * x)) ∧
    INT_MIN * INT_MIN = 4611686018427387904 ∧
    sumOfSquares arr arr.length = some (sumSq arr) ∧ 0 ≤ sumSq arr ∧
    sumSq [INT_MIN, INT_MIN] = 9223372036854775808 ∧
    ¬ (sumSq [INT_MIN, INT_MIN] ≤ LLONG_MAX) := by
  refine ⟨?_, by decide, ?_, sumSq_nonneg arr, by decide, by decide⟩
  · intro x hx
    have hsq := isInt64_mul hx hx
    have hterm : wrap64 (wrap64 x * wrap64 x) = x * x := by
      rw [wrap64_of_isInt32 hx, wrap64_of_isInt64 hsq]
    refine ⟨hterm, sq_le_of_isInt32 hx, ?_⟩
    have h1 : sumOfSquares [x] ([x] : List Int).length = some (wrap64 (sumSq [x])) :=
      sumOfSquares_eq_wrap (by simpa using hx)
    have h2 : sumSq [x] = x * x := by simp [sumSq]
    rw [h2, wrap64_of_isInt64 hsq] at h1
    exact h1
  · have h0 := sumSq_nonneg arr
    rw [sumOfSquares_eq_wrap hall, wrap64_of_isInt64]
    unfold isInt64 LLONG_MIN
    exact ⟨by omega, hfit⟩

theorem sumOfSquares_exact_witness :
    (∀ x ∈ [-2147483648, 2147483647], isInt32 x) ∧
    sumSq [-2147483648, 2147483647] ≤ LLONG_MAX ∧
    (∀ x : Int, isInt32 x →
      wrap64 (wrap64 x * wrap64 x) = x * x ∧ x * x ≤ 4611686018427387904 ∧
      sumOfSquares [x] 1 = some (x * x)) ∧
    INT_MIN * INT_MIN = 4611686018427387904 ∧
    sumOfSquares [-2147483648, 2147483647] ([-2147483648, 2147483647] : List Int).length
      = some (sumSq [-2147483648, 2147483647]) ∧
    0 ≤ sumSq [-2147483648, 2147483647] ∧
    sumSq [INT_MIN, INT_MIN] = 9223372036854775808 ∧
    ¬ (sumSq [INT_MIN, INT_MIN] ≤ LLONG_MAX) :=
  ⟨by decide, by decide, sumOfSquares_exact [-2147483648, 2147483647] (by decide) (by decide)⟩

/-! ## The squares branch: operand count and bounds -/

theorem data_prefix_append (a b : String) : a.data <+: (a ++ b).data := by
  rw [String.data_append]
  exact List.prefix_append _ _

/-- Whatever the `catch` clauses write comes after the text written so far. -/
theorem handler_extends (e : StoiError) (out : String) :
    ∃ o, handler e out = .exit 1 o ∧ out.data <+: o.data := by
  cases e
  · exact ⟨_, rfl, by simp [String.data_append, List.append_assoc]⟩
  · exact ⟨_, rfl, by simp [String.data_append, List.append_assoc]⟩

/-- An exit of the `add` branch has an output that begins with the text
written before the branch. -/
theorem mainAdd_extends (elapsed : Nat) (argv : List String) (out o : String) (code : Int)
    (h : mainAdd elapsed argv out = .exit code o) : out.data <+: o.data := by
  unfold mainAdd at h
  simp only at h
  split at h
  · cases h
    simp [String.data_append, List.append_assoc]
  · split at h
    · cases h
    · obtain ⟨o1, ho1, hp⟩ := handler_extends ‹StoiError› out
      rw [ho1] at h
      cases h
      exact hp
    · split at h
      · cases h
      · obtain ⟨o1, ho1, hp⟩ := handler_extends ‹StoiError› out
        rw [ho1] at h
        cases h
        exact hp
      · unfold report at h
        cases h
        simp [String.data_append, List.append_assoc]

/-- An exit of the `multiply` branch has an output that begins with the text
written before the branch. -/
theorem mainMultiply_extends (elapsed : Nat) (argv : List String) (out o : String)
    (code : Int) (h : mainMultiply elapsed argv out = .exit code o) : out.data <+: o.data := by
  unfold mainMultiply at h
  simp only at h
  split at h
  · cases h
    simp [String.data_append, List.append_assoc]
  · split at h
    · cases h
    · obtain ⟨o1, ho1, hp⟩ := handler_extends ‹StoiError› out
      rw [ho1] at h
      cases h
      exact hp
    · split at h
      · cases h
      · obtain ⟨o1, ho1, hp⟩ := handler_extends ‹StoiError› out
        rw [ho1] at h
        cases h
        exact hp
      · unfold report at h
        cases h
        simp [String.data_append, List.append_assoc]

/-- An exit of the `fibonacci` branch has an output that begins with the
text written before the branch. -/
theorem mainFibonacci_extends (fuel elapsed : Nat) (argv : List String) (out o : String)
    (code : Int) (h : mainFibonacci fuel elapsed argv out = some (.exit code o)) :
    out.data <+: o.data := by
  unfold mainFibonacci at h
  simp only at h
  split at h
  · cases h
    simp [String.data_append, List.append_assoc]
  · split at h
    · cases h
    · obtain ⟨o1, ho1, hp⟩ := handler_extends ‹StoiError› out
      rw [ho1] at h
      cases h
      exact hp
    · split at h
      · cases h
        simp [String.data_append, List.append_assoc]
      · split at h
        · cases h
        · unfold report at h
          cases h
          simp [String.data_append, List.append_assoc]

set_option maxRecDepth 100000 in
/-- The output of the operand-count check of `squares` is none of the
outputs that begin another way. -/
theorem squares_check_output_facts :
    printUsage ≠ banner "squares" ++ squaresCountError ++ endl ∧
    ¬ ((banner "add").data <+: (banner "squares" ++ squaresCountError ++ endl).data) ∧
    ¬ ((banner "multiply").data <+: (banner "squares" ++ squaresCountError ++ endl).data) ∧
    ¬ ((banner "fibonacci").data <+: (banner "squares" ++ squaresCountError ++ endl).data) ∧
    ¬ ((banner "squares" ++ "[C++] Numbers: ").data <+:
      (banner "squares" ++ squaresCountError ++ endl).data) ∧
    (banner "squares" ++ squaresCountError ++ endl).data.length < printUsage.data.length := by
  decide

/-- The `squares` branch, entered with `argc ≥ 3`: the loop filling the
buffer does not fault, and `sumOfSquares` on the filled buffer reads inside
it. -/
theorem mainSquares_in_bounds (argv : List String) (out : String) (hlen : 3 ≤ argv.length) :
    fillNumbers argv (List.range ((argv.length : Int) - 2).toNat)
        (List.replicate ((argv.length : Int) - 2).toNat 0) out ≠ .fault ∧
    ∀ numbers out1,
      fillNumbers argv (List.range ((argv.length : Int) - 2).toNat)
        (List.replicate ((argv.length : Int) - 2).toNat 0) out = .filled numbers out1 →
      ∃ r, sumOfSquares numbers ((argv.length : Int) - 2) = some r := by
  have hcount : ((argv.length : Int) - 2).toNat = argv.length - 2 := by omega
  have hsz : ((argv.length : Int) - 2) = ((argv.length - 2 : Nat) : Int) := by omega
  have hidx : ∀ i ∈ List.range (argv.length - 2),
      i + 2 < argv.length ∧ i < (List.replicate (argv.length - 2) (0 : Int)).length := by
    intro i hi
    rw [List.mem_range] at hi
    simp only [List.length_replicate]
    omega
  rw [hcount, hsz]
  rcases fillNumbers_cases argv _ _ out hidx with ⟨e, t, ht, _⟩ | ⟨numbers1, t, ht, hl, _⟩
  · rw [ht]
    exact ⟨by simp, by intro numbers out1 h; cases h⟩
  · rw [ht]
    refine ⟨by simp, ?_⟩
    intro numbers out1 h
    cases h
    exact sumOfSquares_returns numbers1 (argv.length - 2) (by rw [hl, List.length_replicate])

/-- An exit of the `squares` branch entered with `argc ≥ 3` has an output
that begins with the text written before the branch and `[C++] Numbers: `. -/
theorem mainSquares_extends (elapsed : Nat) (argv : List String) (out o : String)
    (code : Int) (hlen : 3 ≤ argv.length)
    (h : mainSquares elapsed argv out = .exit code o) :
    (out ++ "[C++] Numbers: ").data <+: o.data := by
  have hge : ¬ ((argv.length : Int) < 3) := by omega
  have hcount : ((argv.length : Int) - 2).toNat = argv.length - 2 := by omega
  have hidx : ∀ i ∈ List.range (argv.length - 2),
      i + 2 < argv.length ∧ i < (List.replicate (argv.length - 2) (0 : Int)).length := by
    intro i hi
    rw [List.mem_range] at hi
    simp only [List.length_replicate]
    omega
  unfold mainSquares at h
  simp only [hge, if_false, hcount] at h
  rcases fillNumbers_cases argv _ _ (out ++ "[C++] Numbers: ") hidx with
    ⟨e, t, ht, _⟩ | ⟨numbers1, t, ht, _, _⟩
  · rw [ht] at h
    simp only at h
    obtain ⟨o1, ho1, hp⟩ := handler_extends e (out ++ "[C++] Numbers: " ++ t)
    rw [ho1] at h
    cases h
    exact (data_prefix_append _ t).trans hp
  · rw [ht] at h
    simp only at h
    split at h
    · cases h
    · unfold report at h
      cases h
      simp [String.data_append, List.append_assoc]

/-- The operand-count check of the `squares` branch, taken on its own: it
fires exactly when `argc < 3`, and its outcome is status 1 with the message
`squaresCountError` after the text written so far. -/
theorem mainSquares_check (elapsed : Nat) (argv : List String) (out : String)
    (h : argv.length < 3) :
    mainSquares elapsed argv out = .exit 1 (out ++ squaresCountError ++ endl) := by
  have hlt : (argv.length : Int) < 3 := by exact_mod_cast h
  unfold mainSquares
  simp only [hlt, if_true]
  rfl

/-- C20: no run of `main` ends in the operand-count check of the `squares`
branch, and no run ends in an access outside `argv` or the operand buffer.
When the operation is `squares`, either `argc < 3` and `main` stops at the
usage text, or the branch is entered with `argc - 2 ≥ 1`: the buffer has one
cell or more, the loop filling it stays inside `argv` and the buffer, and
`sumOfSquares` reads inside the buffer. -/
theorem squares_check_unreachable (fuel elapsed : Nat) (argv : List String) :
    main fuel elapsed argv ≠ some (.exit 1 (banner "squares" ++ squaresCountError ++ endl)) ∧
    main fuel elapsed argv ≠ some .fault ∧
    (argv[1]? = some "squares" →
      (argv.length < 3 ∧ main fuel elapsed argv = some (.exit 1 printUsage)) ∨
      (main fuel elapsed argv = some (mainSquares elapsed argv (banner "squares")) ∧
        1 ≤ (argv.length : Int) - 2 ∧
        1 ≤ (List.replicate ((argv.length : Int) - 2).toNat (0 : Int)).length ∧
        fillNumbers argv (List.range ((argv.length : Int) - 2).toNat)
          (List.replicate ((argv.length : Int) - 2).toNat 0)
          (banner "squares" ++ "[C++] Numbers: ") ≠ .fault ∧
        ∀ numbers out1,
          fillNumbers argv (List.range ((argv.length : Int) - 2).toNat)
            (List.replicate ((argv.length : Int) - 2).toNat 0)
            (banner "squares" ++ "[C++] Numbers: ") = .filled numbers out1 →
          ∃ r, sumOfSquares numbers ((argv.length : Int) - 2) = some r)) := by
  refine ⟨?_, ?_, ?_⟩
  · intro hm
    by_cases hlt : argv.length < 3
    · obtain ⟨code, out, ho, _, hout, _⟩ := main_too_few_arguments fuel elapsed argv hlt
      rw [ho] at hm
      cases hm
      exact squares_check_output_facts.1 hout.symm
    · obtain ⟨prog, op, s0, rest, rfl⟩ : ∃ prog op s0 rest, argv = prog :: op :: s0 :: rest := by
        match argv, hlt with
        | prog :: op :: s0 :: rest, _ => exact ⟨prog, op, s0, rest, rfl⟩
        | [], h => simp at h
        | [_], h => simp at h
        | [_, _], h => simp at h
      rw [main_dispatch] at hm
      split at hm
      · rename_i hop
        subst hop
        simp only [Option.some.injEq] at hm
        exact squares_check_output_facts.2.1 (mainAdd_extends _ _ _ _ _ hm)
      · split at hm
        · rename_i hop
          subst hop
          simp only [Option.some.injEq] at hm
          exact squares_check_output_facts.2.2.1 (mainMultiply_extends _ _ _ _ _ hm)
        · split at hm
          · rename_i hop
            subst hop
            exact squares_check_output_facts.2.2.2.1 (mainFibonacci_extends _ _ _ _ _ _ hm)
          · split at hm
            · rename_i hop
              subst hop
              simp only [Option.some.injEq] at hm
              exact squares_check_output_facts.2.2.2.2.1
                (mainSquares_extends _ _ _ _ _ (by simp) hm)
            · simp only [Option.some.injEq, Outcome.exit.injEq, true_and] at hm
              have hlen := congrArg (fun s => s.data.length) hm
              simp only [String.data_append, List.length_append] at hlen
              have := squares_check_output_facts.2.2.2.2.2
              simp only [String.data_append, List.length_append] at this
              omega
  · intro hm
    rcases main_cases fuel elapsed argv with ⟨hnone, _⟩ | ⟨code, out, ho, _⟩
    · rw [hnone] at hm
      cases hm
    · rw [ho] at hm
      cases hm
  · intro hop
    by_cases hlt : argv.length < 3
    · obtain ⟨code, out, ho, _, hout, _⟩ := main_too_few_arguments fuel elapsed argv hlt
      refine Or.inl ⟨hlt, ?_⟩
      rw [ho, hout]
      have hc : code = 1 := by
        have hlt2 : (argv.length : Int) < 3 := by exact_mod_cast hlt
        unfold main at ho
        simp only [hlt2, if_true] at ho
        cases ho
        rfl
      rw [hc]
    · have hlen : 3 ≤ argv.length := by omega
      refine Or.inr ⟨?_, by omega, ?_, mainSquares_in_bounds argv _ hlen⟩
      · obtain ⟨prog, op, s0, rest, rfl⟩ :
            ∃ prog op s0 rest, argv = prog :: op :: s0 :: rest := by
          match argv, hlt with
          | prog :: op :: s0 :: rest, _ => exact ⟨prog, op, s0, rest, rfl⟩
          | [], h => simp at h
          | [_], h => simp at h
          | [_, _], h => simp at h
        have hop1 : op = "squares" := by simpa using hop
        subst hop1
        rw [main_dispatch, if_neg (by decide), if_neg (by decide), if_neg (by decide),
          if_pos rfl]
      · rw [List.length_replicate]
        omega

end Calculator
